import Mathlib

/-!
A shallow embedding of the Pegparse PEG engine (src/lib/parser.js and
src/lib/grammar.js) in Lean 4, together with theorems settling the frozen
claims about the natural-language specification.

Modelling conventions:

* Input scalars (Unicode code points) are `Nat`; a JS string is a `List Nat`
  of its scalars.  Character indexing is by scalar, as in the source's
  `for..of` loops; `charCodeAt(k)` on BMP strings coincides with the k-th
  scalar.
* The JS instruction stream is a flat array `[op0, operand0, op1, operand1,…]`
  and the pc advances by 2 per instruction; offsets are measured in flat
  slots and are always even.  Here `code : List Instr` holds one entry per
  (opcode, operand) pair and the pc advances by 1; every offset from the
  source is divided by 2.  This is an exact change of units.
* The backtrack chain (`bp` pointers in JS) is a `List BTRecord`, head = top.
* Host errors that escape `step` in JS (TypeError on `commit` with a null
  `bp`, the `Rule not found` TypeError from `Grammar.get` reached via `jsr`,
  dispatch on a missing opcode) are modelled as `Except.error`; a parse
  failure is NOT an error but the `failure` status.
* `lib/func.js` is required by the source but absent from the repository
  snapshot; `Fn.join` and its application are modelled from the spec (the
  "concatenation callback" of §4.2: captured scalars/strings are
  concatenated into one string).
-/

namespace Pegparse

/-- The user-callback values that occur as instruction operands.
`lib/func.js` is not part of the snapshot; `join` is *Modelled from the
spec*: the concatenation callback used by `litteral`/`join`. -/
inductive Fn where
  | join
deriving DecidableEq, Repr

mutual
/-- VM instructions: one constructor per opcode of src/lib/parser.js,
carrying its operand.  `end_` is the `end` opcode (keyword in Lean). -/
inductive Instr where
  | char (c : Nat)
  | charset (set : List Nat)
  | any
  | move (d : Int)
  | pushd (v : Cell)
  | jsr (name : String)
  | ret (f : Option Fn)
  | call (f : Fn)
  | frame
  | drop
  | reduce (f : Option Fn)
  | choice (off : Int)
  | commit (off : Int)
  | fail
  | end_
deriving Repr

/-- Stack cells: the heterogeneous values stored on the JS call stack
(`§3` of the spec: input scalars, saved pc/code/fp, packed lists, strings
produced by `join`, and `undefined`). -/
inductive Cell where
  | scalar (c : Nat)
  | str (s : List Nat)
  | savedPc (n : Nat)
  | savedCode (p : List Instr)
  | savedFx (n : Nat)
  | list (cs : List Cell)
  | undef
deriving Repr
end

/-- Terminal machine status: `""`, `"success"` or `"failure"`. -/
inductive Status where
  | empty
  | success
  | failure
deriving DecidableEq, Repr

/-- A backtrack record: the snapshot taken by `choice`
(`{bp, pc, code, tx, sx, fx}` in src/lib/parser.js; the `bp` link is the
tail of the surrounding list). -/
structure BTRecord where
  pc : Nat
  code : List Instr
  tx : Nat
  sx : Nat
  fx : Nat
deriving Repr

/-- The grammar: a name-to-rule mapping (JS `Map`); later `define`s of the
same name shadow earlier ones, hence the prepend-and-find-first encoding. -/
structure Grammar where
  rules : List (String × List Instr)
deriving Repr

/-- The Parser VM state (the mutable fields of the JS `Parser` class). -/
structure Parser where
  grammar : Grammar
  start : String
  tokens : List Nat
  tx : Nat
  code : List Instr
  pc : Nat
  stack : List Cell
  sx : Nat
  fx : Nat
  bp : List BTRecord
  running : Bool
  status : Status
  cc : Nat
deriving Repr

namespace Parser

/-- `this.stack[i] = v` on a JS array: overwrite when the slot exists,
append when `i` equals the length (the only cases arising from the
machine's `sx ≤ stack.length` invariant). -/
def stackWrite (st : List Cell) (i : Nat) (v : Cell) : List Cell :=
  if i < st.length then st.set i v else st ++ [v]

/-- `push(value)`: write at `sx`, increment `sx`. -/
def push (p : Parser) (v : Cell) : Parser :=
  { p with stack := stackWrite p.stack p.sx v, sx := p.sx + 1 }

/-- `fail()`: restore the top backtrack record, or halt with `failure`. -/
def fail (p : Parser) : Parser :=
  match p.bp with
  | [] => { p with running := false, status := Status.failure }
  | r :: rest =>
    { p with bp := rest, pc := r.pc, code := r.code, tx := r.tx,
             sx := r.sx, fx := r.fx }

/-- `char c`: compare the scalar under the cursor (`undefined` past the
end never equals an operand), push it and advance on a match. -/
def char (p : Parser) (c : Nat) : Parser :=
  match p.tokens[p.tx]? with
  | some t => if t = c then { p.push (Cell.scalar t) with tx := p.tx + 1 } else p.fail
  | none => p.fail

/-- `charset set`: a one-scalar token is always truthy in JS (including
`"\x00"`), so the test is existence plus membership. -/
def charsetStep (p : Parser) (set : List Nat) : Parser :=
  match p.tokens[p.tx]? with
  | some t => if t ∈ set then { p.push (Cell.scalar t) with tx := p.tx + 1 } else p.fail
  | none => p.fail

/-- `any`: match any existing scalar except the null scalar `"\x00"`. -/
def anyStep (p : Parser) : Parser :=
  match p.tokens[p.tx]? with
  | some t => if t ≠ 0 then { p.push (Cell.scalar t) with tx := p.tx + 1 } else p.fail
  | none => p.fail

/-- `move d`: add `d` to the cursor, failing exactly when the destination
is negative (no upper bound check). -/
def move (p : Parser) (d : Int) : Parser :=
  let dest : Int := (p.tx : Int) + d
  if dest < 0 then p.fail else { p with tx := dest.toNat }

/-- Add a (source: flat, here: instruction-unit) relative offset to the
already-advanced pc.  Emitted code never produces a negative target. -/
def addOff (pc : Nat) (off : Int) : Nat := ((pc : Int) + off).toNat

/-- `choice off`: record a backtrack point targeting `pc + off`. -/
def choiceStep (p : Parser) (off : Int) : Parser :=
  { p with bp := ⟨addOff p.pc off, p.code, p.tx, p.sx, p.fx⟩ :: p.bp }

/-- The spec-modelled application of a callback (`lib/func.js` is absent
from the snapshot).  `join` concatenates captured scalars/strings. -/
def applyFn : Fn → List Cell → Cell
  | Fn.join, data =>
    Cell.str (data.flatMap fun c =>
      match c with
      | Cell.scalar n => [n]
      | Cell.str s => s
      | _ => [])

/-- `this.stack.slice(this.fx, this.sx)`: the current frame's data. -/
def frameData (p : Parser) : List Cell :=
  (p.stack.drop p.fx).take (p.sx - p.fx)

end Parser

/-- Host errors thrown out of `step` (TypeErrors in JS). -/
def commitErr : String := "TypeError: commit with null bp"
def ruleNotFoundErr (name : String) : String := "Rule not found: " ++ name
def badOpcodeErr : String := "TypeError: no opcode at pc"
def badCellErr : String := "stack cell of unexpected shape"

namespace Grammar

/-- `get(nonterminal)`: the stored rule, or the fatal `Rule not found`
error.  A stored rule is a JS array, always truthy, so the error fires
exactly when the name is absent. -/
def get (g : Grammar) (nonterminal : String) : Except String (List Instr) :=
  match g.rules.find? (fun r => r.1 = nonterminal) with
  | some r => Except.ok r.2
  | none => Except.error (ruleNotFoundErr nonterminal)

/-- `define(name, program, action)`: append `ret action` and store.  The
program's instructions — in particular any `jsr` it contains — are never
inspected. -/
def define (g : Grammar) (name : String) (program : List Instr)
    (action : Option Fn) : Grammar :=
  { rules := (name, program ++ [Instr.ret action]) :: g.rules }

end Grammar

namespace Parser

/-- `jsr nonterminal`: push pc, code, fx; open a frame; jump to the rule.
`Grammar.get` may throw. -/
def jsrStep (p : Parser) (nonterminal : String) : Except String Parser :=
  match p.grammar.get nonterminal with
  | Except.error e => Except.error e
  | Except.ok rule =>
    let p := ((p.push (Cell.savedPc p.pc)).push (Cell.savedCode p.code)).push
      (Cell.savedFx p.fx)
    Except.ok { p with fx := p.sx, pc := 0, code := rule }

/-- `ret fct`: unwind the frame (`sx := fx`), pop fx, code, pc (in that
order, i.e. read `stack[fx-1], stack[fx-2], stack[fx-3]`), push the
reduced value (or the packed data list).  With fewer than three cells
below the frame, or cells of the wrong shape, the dynamically typed
source machine reads `undefined` and derails; modelled as a host
error. -/
def retStep (p : Parser) (fct : Option Fn) : Except String Parser :=
  if p.fx < 3 then Except.error badCellErr else
  match p.stack.getD (p.fx - 1) Cell.undef, p.stack.getD (p.fx - 2) Cell.undef,
      p.stack.getD (p.fx - 3) Cell.undef with
  | Cell.savedFx fx', Cell.savedCode code', Cell.savedPc pc' =>
    Except.ok (Parser.push
      { p with sx := p.fx - 3, fx := fx', code := code', pc := pc' }
      (match fct with
        | some f => applyFn f p.frameData
        | none => Cell.list p.frameData))
  | _, _, _ => Except.error badCellErr

/-- `call fct`: unwind the frame's data and the saved fx, push the
callback's result; pc and code are untouched. -/
def callStep (p : Parser) (fct : Fn) : Except String Parser :=
  if p.fx < 1 then Except.error badCellErr else
  match p.stack.getD (p.fx - 1) Cell.undef with
  | Cell.savedFx fx' =>
    Except.ok (Parser.push { p with sx := p.fx - 1, fx := fx' }
      (applyFn fct p.frameData))
  | _ => Except.error badCellErr

/-- `frame`: open a capture scope. -/
def frameStep (p : Parser) : Parser :=
  { p.push (Cell.savedFx p.fx) with fx := p.sx + 1 }

/-- `drop`: discard the scope (`sx := fx`, then pop the saved fx). -/
def dropStep (p : Parser) : Except String Parser :=
  if p.fx < 1 then Except.error badCellErr else
  match p.stack.getD (p.fx - 1) Cell.undef with
  | Cell.savedFx fx' => Except.ok { p with sx := p.fx - 1, fx := fx' }
  | _ => Except.error badCellErr

/-- `reduce fct`: close the scope with a value. -/
def reduceStep (p : Parser) (fct : Option Fn) : Except String Parser :=
  if p.fx < 1 then Except.error badCellErr else
  match p.stack.getD (p.fx - 1) Cell.undef with
  | Cell.savedFx fx' =>
    Except.ok (Parser.push { p with sx := p.fx - 1, fx := fx' }
      (match fct with
        | some f => applyFn f p.frameData
        | none => Cell.list p.frameData))
  | _ => Except.error badCellErr

/-- One cycle of the evaluation loop (`step`): fetch opcode and operand,
advance pc, dispatch.  JS throws when `code[pc]` is undefined or when a
handler hits a precondition violation; both become `Except.error`. -/
def stepE (p : Parser) : Except String Parser :=
  match p.code[p.pc]? with
  | none => Except.error badOpcodeErr
  | some i =>
    let q : Parser := { p with pc := p.pc + 1, cc := p.cc + 1 }
    match i with
    | Instr.char c => Except.ok (q.char c)
    | Instr.charset set => Except.ok (q.charsetStep set)
    | Instr.any => Except.ok q.anyStep
    | Instr.move d => Except.ok (q.move d)
    | Instr.pushd v => Except.ok (q.push v)
    | Instr.jsr name => q.jsrStep name
    | Instr.ret f => q.retStep f
    | Instr.call f => q.callStep f
    | Instr.frame => Except.ok q.frameStep
    | Instr.drop => q.dropStep
    | Instr.reduce f => q.reduceStep f
    | Instr.choice off => Except.ok (q.choiceStep off)
    | Instr.commit off =>
      match q.bp with
      | [] => Except.error commitErr
      | _ :: rest => Except.ok { q with bp := rest, pc := addOff q.pc off }
    | Instr.fail => Except.ok q.fail
    | Instr.end_ => Except.ok { q with running := false, status := Status.success }

/-- Apply `stepE` exactly `n` times (raw machine cycles, no loop guard). -/
def stepsN : Nat → Parser → Except String Parser
  | 0, p => Except.ok p
  | n + 1, p =>
    match p.stepE with
    | Except.ok q => stepsN n q
    | Except.error e => Except.error e

/-- The bootloader installed by `restart()`: `jsr start; end`. -/
def boot (start : String) : List Instr :=
  [Instr.jsr start, Instr.end_]

/-- `restart()`: reset code/pc, clear the stack and the backtrack chain,
set `running`; the cursor `tx` and the `status` field are untouched.
(The JS method also returns `tx < tokens.length`; that boolean is not
part of the state.) -/
def restart (p : Parser) : Parser :=
  { p with code := boot p.start, pc := 0, stack := [], sx := 0,
           bp := [], running := true }

/-- A freshly constructed parser (`new Parser(grammar, start)`). -/
def mk0 (g : Grammar) (start : String) : Parser :=
  { grammar := g, start := start, tokens := [], tx := 0,
    code := boot start, pc := 0, stack := [], sx := 0, fx := 0,
    bp := [], running := true, status := Status.empty, cc := 0 }

/-- `result()`: `stack[0]` when halted with success, absent otherwise. -/
def result (p : Parser) : Option Cell :=
  if p.running = false ∧ p.status = Status.success then p.stack[0]? else none

end Parser

/-- Outcome of a fuelled driver loop: final state, a host error escaping
`step`, or fuel exhaustion (the JS loop would still be running). -/
inductive Outcome where
  | ok (p : Parser)
  | err (e : String)
  | timeout
deriving Repr

/-- A guarded while-loop of `step` calls, with fuel. -/
def loop (guard : Parser → Bool) : Nat → Parser → Outcome
  | 0, p => if guard p then Outcome.timeout else Outcome.ok p
  | n + 1, p =>
    if guard p then
      match p.stepE with
      | Except.ok q => loop guard n q
      | Except.error e => Outcome.err e
    else Outcome.ok p

/-- The guard of `accept`'s while-loop: `running && tx < tokens.length`. -/
def accGuard (p : Parser) : Bool :=
  p.running && decide (p.tx < p.tokens.length)

/-- The guard of `run`'s while-loop: `running`. -/
def runGuard (p : Parser) : Bool := p.running

/-- `accept(tokens)`: append the chunk, then step while running and
unconsumed input remains. -/
def accept (x : List Nat) (fuel : Nat) (p : Parser) : Outcome :=
  loop accGuard fuel { p with tokens := p.tokens ++ x }

/-- `run()`: step while running. -/
def run (fuel : Nat) (p : Parser) : Outcome :=
  loop runGuard fuel p

/-- The pipeline `accept(x); run()`. -/
def acceptRun (p : Parser) (x : List Nat) (f1 f2 : Nat) : Outcome :=
  match accept x f1 p with
  | Outcome.ok q => run f2 q
  | o => o

/-- The pipeline `accept(x1); accept(x2); run()`. -/
def acceptAcceptRun (p : Parser) (x1 x2 : List Nat) (f1 f2 f3 : Nat) : Outcome :=
  match accept x1 f1 p with
  | Outcome.ok q =>
    match accept x2 f2 q with
    | Outcome.ok r => run f3 r
    | o => o
  | o => o

/-- Outcome of the `matchAll()` generator, driven with fuel: the finite
list of yielded values when the generator returns, or an error/timeout. -/
inductive MOut where
  | ok (ys : List Cell)
  | err (e : String)
  | timeout
deriving Repr

/-- `matchAll()` of src/lib/parser.js, with `iterFuel` bounding the number
of generator iterations and `runFuel` the steps of each inner `run()`:
run the machine when `running`; on success yield `stack[0]` and restart;
otherwise if input remains advance the cursor by one and restart;
otherwise return. -/
def matchAllF (runFuel : Nat) : Nat → Parser → MOut
  | 0, _ => MOut.timeout
  | n + 1, p =>
    match (if p.running then run runFuel p else Outcome.ok p) with
    | Outcome.err e => MOut.err e
    | Outcome.timeout => MOut.timeout
    | Outcome.ok q =>
      if q.status = Status.success then
        match matchAllF runFuel n q.restart with
        | MOut.ok ys => MOut.ok (q.stack.getD 0 Cell.undef :: ys)
        | o => o
      else if q.tx < q.tokens.length then
        matchAllF runFuel n (Parser.restart { q with tx := q.tx + 1 })
      else MOut.ok []

/-- *Modelled from the spec's words* (the C6 sentence): drive the VM to
halt; whenever the halt status is success, yield `stack[0]` and restart;
whenever the halt status is failure and input remains past the cursor,
advance the cursor by exactly one and restart; whenever the halt status
is failure with no input remaining, end the sequence.  (A halt status
that is neither — impossible for a machine that was running — ends the
sequence as well.) -/
def matchAllSpec (runFuel : Nat) : Nat → Parser → MOut
  | 0, _ => MOut.timeout
  | n + 1, p =>
    match run runFuel p with
    | Outcome.err e => MOut.err e
    | Outcome.timeout => MOut.timeout
    | Outcome.ok q =>
      if q.status = Status.success then
        match matchAllSpec runFuel n q.restart with
        | MOut.ok ys => MOut.ok (q.stack.getD 0 Cell.undef :: ys)
        | o => o
      else if q.status = Status.failure ∧ q.tx < q.tokens.length then
        matchAllSpec runFuel n (Parser.restart { q with tx := q.tx + 1 })
      else MOut.ok []

-- ========================================================================
--  The code builder (src/lib/grammar.js)
-- ========================================================================

/-- `_charset(...specs)`: the generator over charset specs.  A spec is a
scalar string; a three-character spec whose middle scalar is `"-"` (45)
is a range and yields the code points from its first through its third
scalar (nothing when the first exceeds the third); any other spec yields
each of its scalars. -/
def charsetGen : List (List Nat) → List Nat
  | [] => []
  | spec :: rest =>
    (if spec.length = 3 ∧ spec.get? 1 = some 45 then
      List.range' (spec.headD 0) (spec.getD 2 0 + 1 - spec.headD 0)
    else spec) ++ charsetGen rest

/-- The `Charset` code object: only membership in `_set` is observable. -/
structure Charset where
  set : List Nat
deriving Repr

/-- `charset(...specs)`: build the set from the generator. -/
def charset (specs : List (List Nat)) : Charset :=
  ⟨charsetGen specs⟩

namespace Charset

/-- `Charset.union(...specs)`. -/
def union (c : Charset) (specs : List (List Nat)) : Charset :=
  ⟨c.set ++ charsetGen specs⟩

/-- `Charset.difference(...specs)`. -/
def difference (c : Charset) (specs : List (List Nat)) : Charset :=
  ⟨c.set.filter (fun i => i ∉ charsetGen specs)⟩

/-- Membership in a charset (`charCodeAt(0) in set` on the holey array). -/
def mem (c : Charset) (i : Nat) : Bool := i ∈ c.set

/-- `Charset#instructions`: the emitted code. -/
def instructions (c : Charset) : List Instr := [Instr.charset c.set]

end Charset

/-- `litteral(str)`: a `char` instruction per scalar, wrapped in
`frame … reduce JOIN` when the string has more than one scalar. -/
def litteral (str : List Nat) : List Instr :=
  (if 1 < str.length then [Instr.frame] else []) ++
    str.map Instr.char ++
    (if 1 < str.length then [Instr.reduce (some Fn.join)] else [])

/-- `not(program)`: `choice (|P|+2); P; commit 0; fail` (offsets in
instruction units; the source's flat offsets are twice these). -/
def notP (program : List Instr) : List Instr :=
  Instr.choice ((program.length : Int) + 2) :: program ++
    [Instr.commit 0, Instr.fail]

/-- `and(program) = not(not(program))`. -/
def andP (program : List Instr) : List Instr :=
  notP (notP program)

/-- `nat(delta, program) = not(move delta; program)` (the lookaround). -/
def natP (delta : Int) (program : List Instr) : List Instr :=
  notP (Instr.move delta :: program)

/-- `any()`. -/
def anyP : List Instr := [Instr.any]

/-- `rule(name)`. -/
def ruleP (name : String) : List Instr := [Instr.jsr name]

/-- `zeroOrMore(program)`: `choice (|P|+1); P; commit (-|P|-2)`. -/
def zeroOrMore (program : List Instr) : List Instr :=
  Instr.choice ((program.length : Int) + 1) :: program ++
    [Instr.commit (-(program.length : Int) - 2)]

/-- `optional(program, default)`: `choice (|P|+1); P; commit 1; pushd v`. -/
def optionalP (program : List Instr) (v : Cell) : List Instr :=
  Instr.choice ((program.length : Int) + 1) :: program ++
    [Instr.commit 1, Instr.pushd v]

/-- `consume(program)`: `frame; P; drop`. -/
def consume (program : List Instr) : List Instr :=
  Instr.frame :: program ++ [Instr.drop]

/-- `choice(alternatives)`: right-associative nesting
`choice (|head|+1); head; commit |rest|; rest`. -/
def choiceC (alternatives : List (List Instr)) : List Instr :=
  match alternatives with
  | [] => []
  | [a] => a
  | a :: rest =>
    let r := choiceC rest
    Instr.choice ((a.length : Int) + 1) :: a ++ [Instr.commit (r.length : Int)] ++ r

/-- `true` exactly on `char` instructions. -/
def isCharInstr : Instr → Bool
  | Instr.char _ => true
  | _ => false

/-- Relation between a state and its successor under one VM step, as far
as `running`/`status` are concerned: either both fields are untouched or
the machine halted, stamping a non-empty status. -/
def rsOk (p q : Parser) : Prop :=
  (q.running = p.running ∧ q.status = p.status) ∨
    q.status = Status.success ∨ q.status = Status.failure

/-- A grammar whose start rule is the predicate `not(any())` — the
smallest grammar on which a predicate's failure path is observable. -/
def gNotAny : Grammar := Grammar.define ⟨[]⟩ "S" (notP anyP) none

/-- A machine positioned at the start of a `not(any())` block, with the
scalar `"a"` waiting under the cursor. -/
def c1state : Parser :=
  { Parser.mk0 gNotAny "S" with
    code := notP anyP ++ [Instr.ret none], tokens := [97] }

/-- A grammar whose start rule matches the literal `"ab"`. -/
def gAB : Grammar := Grammar.define ⟨[]⟩ "S" (litteral [97, 98]) none

/-- Replace the input buffer, all other state untouched (what `accept`
does to `tokens` before stepping). -/
def setTokens (t : List Nat) (p : Parser) : Parser := { p with tokens := t }

/-- Straight-line token-testing instructions: the consuming tests plus
`move`/`pushd`.  A program of such instructions (e.g. the body emitted
for a literal, a charset test, or a lookaround's `move delta; chars`)
never touches the backtrack chain or the frame bookkeeping, so a
predicate built over it exercises exactly the `choice/commit/fail`
protocol of `not`/`and`. -/
def tokenInstr : Instr → Bool
  | Instr.char _ => true
  | Instr.charset _ => true
  | Instr.any => true
  | Instr.move _ => true
  | Instr.pushd _ => true
  | _ => false

/-- What a straight-line program's execution preserves of the state it
started from: code, backtrack chain, frame pointer, input, grammar,
running/status flags; the stack pointer can only grow and, when the
machine's `sx ≤ stack.length` invariant holds on entry, it is maintained
and the stack below the entry `sx` is untouched. -/
structure Reach (s s' : Parser) : Prop where
  code : s'.code = s.code
  bp : s'.bp = s.bp
  fx : s'.fx = s.fx
  sx_le : s.sx ≤ s'.sx
  tokens : s'.tokens = s.tokens
  grammar : s'.grammar = s.grammar
  running : s'.running = s.running
  status : s'.status = s.status
  stack : s.sx ≤ s.stack.length →
    s'.sx ≤ s'.stack.length ∧ ∀ j, j < s.sx → s'.stack[j]? = s.stack[j]?

-- ========================================================================
--  Theorems
-- ========================================================================

-- Equation lemmas for `stepE`, one per fetched opcode.  `bump p` is the
-- state after the fetch (pc advanced, clock ticked).

/-- The state after instruction fetch: pc past the instruction, clock
ticked; the dispatched handler starts from here. -/
def bump (p : Parser) : Parser :=
  { p with pc := p.pc + 1, cc := p.cc + 1 }

theorem stepE_none {p : Parser} (h : p.code[p.pc]? = none) :
    p.stepE = Except.error badOpcodeErr := by
  unfold Parser.stepE; rw [h]

theorem stepE_char {p : Parser} {c : Nat} (h : p.code[p.pc]? = some (Instr.char c)) :
    p.stepE = Except.ok ((bump p).char c) := by
  unfold Parser.stepE; rw [h]; rfl

theorem stepE_charset {p : Parser} {set : List Nat}
    (h : p.code[p.pc]? = some (Instr.charset set)) :
    p.stepE = Except.ok ((bump p).charsetStep set) := by
  unfold Parser.stepE; rw [h]; rfl

theorem stepE_any {p : Parser} (h : p.code[p.pc]? = some Instr.any) :
    p.stepE = Except.ok (bump p).anyStep := by
  unfold Parser.stepE; rw [h]; rfl

theorem stepE_move {p : Parser} {d : Int} (h : p.code[p.pc]? = some (Instr.move d)) :
    p.stepE = Except.ok ((bump p).move d) := by
  unfold Parser.stepE; rw [h]; rfl

theorem stepE_pushd {p : Parser} {v : Cell} (h : p.code[p.pc]? = some (Instr.pushd v)) :
    p.stepE = Except.ok ((bump p).push v) := by
  unfold Parser.stepE; rw [h]; rfl

theorem stepE_jsr {p : Parser} {name : String}
    (h : p.code[p.pc]? = some (Instr.jsr name)) :
    p.stepE = (bump p).jsrStep name := by
  unfold Parser.stepE; rw [h]; rfl

theorem stepE_ret {p : Parser} {f : Option Fn}
    (h : p.code[p.pc]? = some (Instr.ret f)) :
    p.stepE = (bump p).retStep f := by
  unfold Parser.stepE; rw [h]; rfl

theorem stepE_call {p : Parser} {f : Fn}
    (h : p.code[p.pc]? = some (Instr.call f)) :
    p.stepE = (bump p).callStep f := by
  unfold Parser.stepE; rw [h]; rfl

theorem stepE_frame {p : Parser} (h : p.code[p.pc]? = some Instr.frame) :
    p.stepE = Except.ok (bump p).frameStep := by
  unfold Parser.stepE; rw [h]; rfl

theorem stepE_drop {p : Parser} (h : p.code[p.pc]? = some Instr.drop) :
    p.stepE = (bump p).dropStep := by
  unfold Parser.stepE; rw [h]; rfl

theorem stepE_reduce {p : Parser} {f : Option Fn}
    (h : p.code[p.pc]? = some (Instr.reduce f)) :
    p.stepE = (bump p).reduceStep f := by
  unfold Parser.stepE; rw [h]; rfl

theorem stepE_choice {p : Parser} {off : Int}
    (h : p.code[p.pc]? = some (Instr.choice off)) :
    p.stepE = Except.ok ((bump p).choiceStep off) := by
  unfold Parser.stepE; rw [h]; rfl

theorem stepE_commit_nil {p : Parser} {off : Int}
    (h : p.code[p.pc]? = some (Instr.commit off)) (hbp : p.bp = []) :
    p.stepE = Except.error commitErr := by
  unfold Parser.stepE; rw [h]; simp only [bump, hbp]

theorem stepE_commit_cons {p : Parser} {off : Int} {r : BTRecord}
    {rest : List BTRecord} (h : p.code[p.pc]? = some (Instr.commit off))
    (hbp : p.bp = r :: rest) :
    p.stepE = Except.ok { bump p with
                          bp := rest
                          pc := Parser.addOff (p.pc + 1) off } := by
  unfold Parser.stepE; rw [h]; simp only [bump, hbp]

theorem stepE_fail {p : Parser} (h : p.code[p.pc]? = some Instr.fail) :
    p.stepE = Except.ok (bump p).fail := by
  unfold Parser.stepE; rw [h]; rfl

theorem stepE_end {p : Parser} (h : p.code[p.pc]? = some Instr.end_) :
    p.stepE = Except.ok { bump p with
                          running := false
                          status := Status.success } := by
  unfold Parser.stepE; rw [h]; rfl

-- Per-handler `running`/`status` preservation for the Except-valued
-- handlers.

theorem jsrStep_rs {p q : Parser} {name : String}
    (h : p.jsrStep name = Except.ok q) :
    q.running = p.running ∧ q.status = p.status := by
  unfold Parser.jsrStep at h
  cases hg : p.grammar.get name with
  | error e => rw [hg] at h; exact absurd h (by simp)
  | ok rule => rw [hg] at h; cases h; exact ⟨rfl, rfl⟩

theorem retStep_rs {p q : Parser} {f : Option Fn}
    (h : p.retStep f = Except.ok q) :
    q.running = p.running ∧ q.status = p.status := by
  unfold Parser.retStep at h
  repeat' split at h
  all_goals first
    | (cases h; exact ⟨rfl, rfl⟩)
    | exact absurd h (by simp)

theorem callStep_rs {p q : Parser} {f : Fn}
    (h : p.callStep f = Except.ok q) :
    q.running = p.running ∧ q.status = p.status := by
  unfold Parser.callStep at h
  repeat' split at h
  all_goals first
    | (cases h; exact ⟨rfl, rfl⟩)
    | exact absurd h (by simp)

theorem dropStep_rs {p q : Parser}
    (h : p.dropStep = Except.ok q) :
    q.running = p.running ∧ q.status = p.status := by
  unfold Parser.dropStep at h
  repeat' split at h
  all_goals first
    | (cases h; exact ⟨rfl, rfl⟩)
    | exact absurd h (by simp)

theorem reduceStep_rs {p q : Parser} {f : Option Fn}
    (h : p.reduceStep f = Except.ok q) :
    q.running = p.running ∧ q.status = p.status := by
  unfold Parser.reduceStep at h
  repeat' split at h
  all_goals first
    | (cases h; exact ⟨rfl, rfl⟩)
    | exact absurd h (by simp)

-- Bookkeeping lemmas about single steps and driver loops.

theorem rsOk_fail (p : Parser) : rsOk p p.fail := by
  cases hb : p.bp <;> simp [rsOk, Parser.fail, hb]

theorem rsOk_char (p : Parser) (c : Nat) : rsOk p (p.char c) := by
  unfold Parser.char
  cases h : p.tokens[p.tx]? with
  | none => exact rsOk_fail p
  | some t =>
    by_cases ht : t = c
    · simp [ht, rsOk, Parser.push]
    · simpa [ht] using rsOk_fail p

theorem rsOk_charsetStep (p : Parser) (set : List Nat) :
    rsOk p (p.charsetStep set) := by
  unfold Parser.charsetStep
  cases h : p.tokens[p.tx]? with
  | none => exact rsOk_fail p
  | some t =>
    by_cases ht : t ∈ set
    · simp [ht, rsOk, Parser.push]
    · simpa [ht] using rsOk_fail p

theorem rsOk_anyStep (p : Parser) : rsOk p p.anyStep := by
  unfold Parser.anyStep
  cases h : p.tokens[p.tx]? with
  | none => exact rsOk_fail p
  | some t =>
    by_cases ht : t ≠ 0
    · simp [ht, rsOk, Parser.push]
    · simpa [ht] using rsOk_fail p

theorem rsOk_move (p : Parser) (d : Int) : rsOk p (p.move d) := by
  unfold Parser.move
  by_cases h : (p.tx : Int) + d < 0
  · simpa [h] using rsOk_fail p
  · simp [h, rsOk]

/-- One VM step either leaves `running` and `status` alone or halts with
a non-empty status. -/
theorem stepE_rsOk (p q : Parser) (h : p.stepE = Except.ok q) : rsOk p q := by
  cases hcode : p.code[p.pc]? with
  | none => rw [stepE_none hcode] at h; exact absurd h (by simp)
  | some i =>
    cases i with
    | char c =>
      rw [stepE_char hcode] at h
      cases h
      exact rsOk_char (bump p) c
    | charset set =>
      rw [stepE_charset hcode] at h
      cases h
      exact rsOk_charsetStep (bump p) set
    | any =>
      rw [stepE_any hcode] at h
      cases h
      exact rsOk_anyStep (bump p)
    | move d =>
      rw [stepE_move hcode] at h
      cases h
      exact rsOk_move (bump p) d
    | pushd v =>
      rw [stepE_pushd hcode] at h
      cases h
      exact Or.inl ⟨rfl, rfl⟩
    | jsr name =>
      rw [stepE_jsr hcode] at h
      have hpq := jsrStep_rs h
      exact Or.inl hpq
    | ret f =>
      rw [stepE_ret hcode] at h
      have hpq := retStep_rs h
      exact Or.inl hpq
    | call f =>
      rw [stepE_call hcode] at h
      have hpq := callStep_rs h
      exact Or.inl hpq
    | frame =>
      rw [stepE_frame hcode] at h
      cases h
      exact Or.inl ⟨rfl, rfl⟩
    | drop =>
      rw [stepE_drop hcode] at h
      have hpq := dropStep_rs h
      exact Or.inl hpq
    | reduce f =>
      rw [stepE_reduce hcode] at h
      have hpq := reduceStep_rs h
      exact Or.inl hpq
    | choice off =>
      rw [stepE_choice hcode] at h
      cases h
      exact Or.inl ⟨rfl, rfl⟩
    | commit off =>
      cases hb : p.bp with
      | nil => rw [stepE_commit_nil hcode hb] at h; exact absurd h (by simp)
      | cons r rest =>
        rw [stepE_commit_cons hcode hb] at h
        cases h
        exact Or.inl ⟨rfl, rfl⟩
    | fail =>
      rw [stepE_fail hcode] at h
      cases h
      exact rsOk_fail (bump p)
    | end_ =>
      rw [stepE_end hcode] at h
      cases h
      exact Or.inr (Or.inl rfl)

/-- The machine invariant of `matchAll`'s iterations: running, or halted
with a stamped status. -/
theorem rsOk_inv {p q : Parser} (hrs : rsOk p q)
    (hp : p.running = true ∨ p.status ≠ Status.empty) :
    q.running = true ∨ q.status ≠ Status.empty := by
  rcases hrs with ⟨hr, hs⟩ | hs | hs
  · rcases hp with hp | hp
    · exact Or.inl (hr.trans hp)
    · exact Or.inr (by rw [hs]; exact hp)
  · exact Or.inr (by simp [hs])
  · exact Or.inr (by simp [hs])

/-- A loop that returns normally stopped because its guard went false. -/
theorem loop_ok_guard {G : Parser → Bool} {f : Nat} {p q : Parser}
    (h : loop G f p = Outcome.ok q) : G q = false := by
  induction f generalizing p with
  | zero =>
    unfold loop at h
    split at h
    · exact absurd h (by simp)
    · cases h
      rename_i hg
      exact Bool.eq_false_iff.mpr hg
  | succ n ih =>
    unfold loop at h
    split at h
    · cases hs : p.stepE with
      | ok p1 => rw [hs] at h; exact ih h
      | error e => rw [hs] at h; exact absurd h (by simp)
    · cases h
      rename_i hg
      exact Bool.eq_false_iff.mpr hg

/-- A guard that is already false makes the loop return at once. -/
theorem loop_guard_false {G : Parser → Bool} {p : Parser} (h : G p = false)
    (f : Nat) : loop G f p = Outcome.ok p := by
  cases f <;> simp [loop, h]

/-- Loops preserve the running-or-stamped invariant. -/
theorem loop_ok_inv {G : Parser → Bool} {f : Nat} {p q : Parser}
    (h : loop G f p = Outcome.ok q)
    (hp : p.running = true ∨ p.status ≠ Status.empty) :
    q.running = true ∨ q.status ≠ Status.empty := by
  induction f generalizing p with
  | zero =>
    unfold loop at h
    split at h
    · exact absurd h (by simp)
    · cases h; exact hp
  | succ n ih =>
    unfold loop at h
    split at h
    · cases hs : p.stepE with
      | ok p1 =>
        rw [hs] at h
        exact ih h (rsOk_inv (stepE_rsOk p p1 hs) hp)
      | error e => rw [hs] at h; exact absurd h (by simp)
    · cases h; exact hp

/-- `run()` that returns normally leaves the machine halted with status
`success` or `failure` (provided it was running or already stamped). -/
theorem run_ok_status {f : Nat} {p q : Parser} (h : run f p = Outcome.ok q)
    (hp : p.running = true ∨ p.status ≠ Status.empty) :
    q.running = false ∧ (q.status = Status.success ∨ q.status = Status.failure) := by
  have hg : runGuard q = false := loop_ok_guard h
  have hinv := loop_ok_inv h hp
  have hr : q.running = false := by simpa [runGuard] using hg
  refine ⟨hr, ?_⟩
  rcases hinv with h1 | h1
  · rw [hr] at h1; exact absurd h1 (by simp)
  · cases hs : q.status with
    | empty => exact absurd hs h1
    | success => exact Or.inl rfl
    | failure => exact Or.inr rfl

-- Preservation of the input buffer by single steps and loops.

theorem fail_tokens (p : Parser) : p.fail.tokens = p.tokens := by
  cases hb : p.bp <;> simp [Parser.fail, hb]

theorem char_tokens (p : Parser) (c : Nat) : (p.char c).tokens = p.tokens := by
  unfold Parser.char
  cases hT : p.tokens[p.tx]? with
  | none => exact fail_tokens p
  | some t =>
    by_cases ht : t = c
    · simp [ht, Parser.push]
    · simpa [ht] using fail_tokens p

theorem charsetStep_tokens (p : Parser) (set : List Nat) :
    (p.charsetStep set).tokens = p.tokens := by
  unfold Parser.charsetStep
  cases hT : p.tokens[p.tx]? with
  | none => exact fail_tokens p
  | some t =>
    by_cases ht : t ∈ set
    · simp [ht, Parser.push]
    · simpa [ht] using fail_tokens p

theorem anyStep_tokens (p : Parser) : p.anyStep.tokens = p.tokens := by
  unfold Parser.anyStep
  cases hT : p.tokens[p.tx]? with
  | none => exact fail_tokens p
  | some t =>
    by_cases ht : t ≠ 0
    · simp [ht, Parser.push]
    · simpa [ht] using fail_tokens p

theorem move_tokens (p : Parser) (d : Int) : (p.move d).tokens = p.tokens := by
  unfold Parser.move
  by_cases h : ((p.tx : Int) + d) < 0
  · simpa [h] using fail_tokens p
  · simp [h]

theorem jsrStep_tokens {p q : Parser} {name : String}
    (h : p.jsrStep name = Except.ok q) : q.tokens = p.tokens := by
  unfold Parser.jsrStep at h
  cases hg : p.grammar.get name with
  | error e => rw [hg] at h; exact absurd h (by simp)
  | ok rule => rw [hg] at h; cases h; rfl

theorem retStep_tokens {p q : Parser} {f : Option Fn}
    (h : p.retStep f = Except.ok q) : q.tokens = p.tokens := by
  unfold Parser.retStep at h
  repeat' split at h
  all_goals first
    | (cases h; rfl)
    | exact absurd h (by simp)

theorem callStep_tokens {p q : Parser} {f : Fn}
    (h : p.callStep f = Except.ok q) : q.tokens = p.tokens := by
  unfold Parser.callStep at h
  repeat' split at h
  all_goals first
    | (cases h; rfl)
    | exact absurd h (by simp)

theorem dropStep_tokens {p q : Parser}
    (h : p.dropStep = Except.ok q) : q.tokens = p.tokens := by
  unfold Parser.dropStep at h
  repeat' split at h
  all_goals first
    | (cases h; rfl)
    | exact absurd h (by simp)

theorem reduceStep_tokens {p q : Parser} {f : Option Fn}
    (h : p.reduceStep f = Except.ok q) : q.tokens = p.tokens := by
  unfold Parser.reduceStep at h
  repeat' split at h
  all_goals first
    | (cases h; rfl)
    | exact absurd h (by simp)

/-- No instruction handler writes the input buffer. -/
theorem stepE_tokens {p q : Parser} (h : p.stepE = Except.ok q) :
    q.tokens = p.tokens := by
  cases hcode : p.code[p.pc]? with
  | none => rw [stepE_none hcode] at h; exact absurd h (by simp)
  | some i =>
    cases i with
    | char c => rw [stepE_char hcode] at h; cases h; exact char_tokens (bump p) c
    | charset set =>
      rw [stepE_charset hcode] at h
      cases h
      exact charsetStep_tokens (bump p) set
    | any => rw [stepE_any hcode] at h; cases h; exact anyStep_tokens (bump p)
    | move d => rw [stepE_move hcode] at h; cases h; exact move_tokens (bump p) d
    | pushd v => rw [stepE_pushd hcode] at h; cases h; rfl
    | jsr name =>
      rw [stepE_jsr hcode] at h
      have ht := jsrStep_tokens h
      exact ht
    | ret f =>
      rw [stepE_ret hcode] at h
      have ht := retStep_tokens h
      exact ht
    | call f =>
      rw [stepE_call hcode] at h
      have ht := callStep_tokens h
      exact ht
    | frame => rw [stepE_frame hcode] at h; cases h; rfl
    | drop =>
      rw [stepE_drop hcode] at h
      have ht := dropStep_tokens h
      exact ht
    | reduce f =>
      rw [stepE_reduce hcode] at h
      have ht := reduceStep_tokens h
      exact ht
    | choice off => rw [stepE_choice hcode] at h; cases h; rfl
    | commit off =>
      cases hb : p.bp with
      | nil => rw [stepE_commit_nil hcode hb] at h; exact absurd h (by simp)
      | cons r rest => rw [stepE_commit_cons hcode hb] at h; cases h; rfl
    | fail => rw [stepE_fail hcode] at h; cases h; exact fail_tokens (bump p)
    | end_ => rw [stepE_end hcode] at h; cases h; rfl

-- Commutation of each handler with an input-buffer extension: a step
-- taken while the cursor is inside the already-present prefix behaves
-- identically when more input is appended.

theorem fail_setTokens (y : List Nat) (p : Parser) :
    (setTokens y p).fail = setTokens y p.fail := by
  cases hb : p.bp <;> simp [Parser.fail, setTokens, hb]

theorem char_setTokens {x1 : List Nat} (x2 : List Nat) {p : Parser} (c : Nat)
    (htok : p.tokens = x1) (htx : p.tx < x1.length) :
    (setTokens (x1 ++ x2) p).char c = setTokens (x1 ++ x2) (p.char c) := by
  have hidx : (x1 ++ x2)[p.tx]? = p.tokens[p.tx]? := by
    rw [htok]; exact List.getElem?_append_left htx
  unfold Parser.char
  simp only [setTokens]
  rw [hidx]
  cases hT : p.tokens[p.tx]? with
  | none => simpa using fail_setTokens (x1 ++ x2) p
  | some t =>
    by_cases ht : t = c
    · simp [ht, Parser.push, Parser.stackWrite]
    · simpa [ht] using fail_setTokens (x1 ++ x2) p

theorem charsetStep_setTokens {x1 : List Nat} (x2 : List Nat) {p : Parser}
    (set : List Nat) (htok : p.tokens = x1) (htx : p.tx < x1.length) :
    (setTokens (x1 ++ x2) p).charsetStep set =
      setTokens (x1 ++ x2) (p.charsetStep set) := by
  have hidx : (x1 ++ x2)[p.tx]? = p.tokens[p.tx]? := by
    rw [htok]; exact List.getElem?_append_left htx
  unfold Parser.charsetStep
  simp only [setTokens]
  rw [hidx]
  cases hT : p.tokens[p.tx]? with
  | none => simpa using fail_setTokens (x1 ++ x2) p
  | some t =>
    by_cases ht : t ∈ set
    · simp [ht, Parser.push, Parser.stackWrite]
    · simpa [ht] using fail_setTokens (x1 ++ x2) p

theorem anyStep_setTokens {x1 : List Nat} (x2 : List Nat) {p : Parser}
    (htok : p.tokens = x1) (htx : p.tx < x1.length) :
    (setTokens (x1 ++ x2) p).anyStep = setTokens (x1 ++ x2) p.anyStep := by
  have hidx : (x1 ++ x2)[p.tx]? = p.tokens[p.tx]? := by
    rw [htok]; exact List.getElem?_append_left htx
  unfold Parser.anyStep
  simp only [setTokens]
  rw [hidx]
  cases hT : p.tokens[p.tx]? with
  | none => simpa using fail_setTokens (x1 ++ x2) p
  | some t =>
    by_cases ht : t ≠ 0
    · simp [ht, Parser.push, Parser.stackWrite]
    · simpa [ht] using fail_setTokens (x1 ++ x2) p

theorem move_setTokens (y : List Nat) (p : Parser) (d : Int) :
    (setTokens y p).move d = setTokens y (p.move d) := by
  unfold Parser.move
  simp only [setTokens]
  by_cases h : ((p.tx : Int) + d) < 0
  · simpa [h] using fail_setTokens y p
  · simp [h]

theorem jsrStep_setTokens (y : List Nat) (p : Parser) (name : String) :
    (setTokens y p).jsrStep name = Except.map (setTokens y) (p.jsrStep name) := by
  unfold Parser.jsrStep
  simp only [setTokens]
  cases hg : p.grammar.get name with
  | error e => rfl
  | ok rule => rfl

theorem retStep_setTokens (y : List Nat) (p : Parser) (f : Option Fn) :
    (setTokens y p).retStep f = Except.map (setTokens y) (p.retStep f) := by
  unfold Parser.retStep
  simp only [setTokens]
  by_cases hfx : p.fx < 3
  · simp [hfx, Except.map]
  · cases h1 : p.stack.getD (p.fx - 1) Cell.undef <;>
      cases h2 : p.stack.getD (p.fx - 2) Cell.undef <;>
      cases h3 : p.stack.getD (p.fx - 3) Cell.undef <;>
      simp [hfx, h1, h2, h3, Parser.push, Parser.frameData, Parser.stackWrite,
        Except.map, setTokens]

theorem callStep_setTokens (y : List Nat) (p : Parser) (f : Fn) :
    (setTokens y p).callStep f = Except.map (setTokens y) (p.callStep f) := by
  unfold Parser.callStep
  simp only [setTokens]
  by_cases hfx : p.fx < 1
  · simp [hfx, Except.map]
  · cases h1 : p.stack.getD (p.fx - 1) Cell.undef <;>
      simp [hfx, h1, Parser.push, Parser.frameData, Parser.stackWrite,
        Except.map, setTokens]

theorem dropStep_setTokens (y : List Nat) (p : Parser) :
    (setTokens y p).dropStep = Except.map (setTokens y) p.dropStep := by
  unfold Parser.dropStep
  simp only [setTokens]
  by_cases hfx : p.fx < 1
  · simp [hfx, Except.map]
  · cases h1 : p.stack.getD (p.fx - 1) Cell.undef <;> simp [hfx, h1, Except.map, setTokens]

theorem reduceStep_setTokens (y : List Nat) (p : Parser) (f : Option Fn) :
    (setTokens y p).reduceStep f = Except.map (setTokens y) (p.reduceStep f) := by
  unfold Parser.reduceStep
  simp only [setTokens]
  by_cases hfx : p.fx < 1
  · simp [hfx, Except.map]
  · cases h1 : p.stack.getD (p.fx - 1) Cell.undef <;>
      simp [hfx, h1, Parser.push, Parser.frameData, Parser.stackWrite,
        Except.map, setTokens]

/-- A step taken while the cursor is still inside the present input
prefix `x1` is oblivious to input appended after `x1`. -/
theorem stepE_setTokens {x1 : List Nat} (x2 : List Nat) {p : Parser}
    (htok : p.tokens = x1) (htx : p.tx < x1.length) :
    (setTokens (x1 ++ x2) p).stepE = Except.map (setTokens (x1 ++ x2)) p.stepE := by
  have hcode' : (setTokens (x1 ++ x2) p).code[(setTokens (x1 ++ x2) p).pc]? =
      p.code[p.pc]? := rfl
  cases hcode : p.code[p.pc]? with
  | none =>
    rw [stepE_none hcode, stepE_none (hcode'.trans hcode)]
    rfl
  | some i =>
    have hc2 : (setTokens (x1 ++ x2) p).code[(setTokens (x1 ++ x2) p).pc]? =
        some i := hcode'.trans hcode
    have hb : bump (setTokens (x1 ++ x2) p) = setTokens (x1 ++ x2) (bump p) := rfl
    cases i with
    | char c =>
      rw [stepE_char hcode, stepE_char hc2, hb,
        char_setTokens x2 c (show (bump p).tokens = x1 from htok)
          (show (bump p).tx < x1.length from htx)]
      rfl
    | charset set =>
      rw [stepE_charset hcode, stepE_charset hc2, hb,
        charsetStep_setTokens x2 set (show (bump p).tokens = x1 from htok)
          (show (bump p).tx < x1.length from htx)]
      rfl
    | any =>
      rw [stepE_any hcode, stepE_any hc2, hb,
        anyStep_setTokens x2 (show (bump p).tokens = x1 from htok)
          (show (bump p).tx < x1.length from htx)]
      rfl
    | move d =>
      rw [stepE_move hcode, stepE_move hc2, hb, move_setTokens]
      rfl
    | pushd v => rw [stepE_pushd hcode, stepE_pushd hc2]; rfl
    | jsr name => rw [stepE_jsr hcode, stepE_jsr hc2, hb, jsrStep_setTokens]
    | ret f => rw [stepE_ret hcode, stepE_ret hc2, hb, retStep_setTokens]
    | call f => rw [stepE_call hcode, stepE_call hc2, hb, callStep_setTokens]
    | frame => rw [stepE_frame hcode, stepE_frame hc2]; rfl
    | drop => rw [stepE_drop hcode, stepE_drop hc2, hb, dropStep_setTokens]
    | reduce f =>
      rw [stepE_reduce hcode, stepE_reduce hc2, hb, reduceStep_setTokens]
    | choice off => rw [stepE_choice hcode, stepE_choice hc2]; rfl
    | commit off =>
      cases hbp : p.bp with
      | nil =>
        rw [stepE_commit_nil hcode hbp,
          stepE_commit_nil hc2 (show (setTokens (x1 ++ x2) p).bp = [] from hbp)]
        rfl
      | cons r rest =>
        rw [stepE_commit_cons hcode hbp,
          stepE_commit_cons hc2
            (show (setTokens (x1 ++ x2) p).bp = r :: rest from hbp)]
        rfl
    | fail =>
      rw [stepE_fail hcode, stepE_fail hc2, hb, fail_setTokens]
      rfl
    | end_ => rw [stepE_end hcode, stepE_end hc2]; rfl

/-- Driver loops never change the input buffer. -/
theorem loop_tokens {G : Parser → Bool} {f : Nat} {p q : Parser}
    (h : loop G f p = Outcome.ok q) : q.tokens = p.tokens := by
  induction f generalizing p with
  | zero =>
    unfold loop at h
    split at h
    · exact absurd h (by simp)
    · cases h; rfl
  | succ n ih =>
    unfold loop at h
    split at h
    · cases hs : p.stepE with
      | ok p1 => rw [hs] at h; exact (ih h).trans (stepE_tokens hs)
      | error e => rw [hs] at h; exact absurd h (by simp)
    · cases h; rfl

-- The fuel algebra of driver loops: surplus fuel is harmless, loops with
-- nested guards compose, and results are unique.

theorem loop_mono {G : Parser → Bool} {f : Nat} {p q : Parser}
    (h : loop G f p = Outcome.ok q) (d : Nat) :
    loop G (f + d) p = Outcome.ok q := by
  induction f generalizing p with
  | zero =>
    unfold loop at h
    split at h
    · exact absurd h (by simp)
    · cases h
      rename_i hg
      exact loop_guard_false (Bool.eq_false_iff.mpr hg) _
  | succ n ih =>
    unfold loop at h
    split at h
    · rename_i hg
      cases hs : p.stepE with
      | ok p1 =>
        rw [hs] at h
        have : n + 1 + d = (n + d) + 1 := by omega
        rw [this]
        unfold loop
        rw [if_pos hg, hs]
        exact ih h
      | error e => rw [hs] at h; exact absurd h (by simp)
    · cases h
      rename_i hg
      exact loop_guard_false (Bool.eq_false_iff.mpr hg) _

theorem loop_append {G1 G2 : Parser → Bool}
    (hG : ∀ s, G1 s = true → G2 s = true) {f1 f2 : Nat} {p q r : Parser}
    (h1 : loop G1 f1 p = Outcome.ok q) (h2 : loop G2 f2 q = Outcome.ok r) :
    loop G2 (f1 + f2) p = Outcome.ok r := by
  induction f1 generalizing p with
  | zero =>
    unfold loop at h1
    split at h1
    · exact absurd h1 (by simp)
    · cases h1
      simpa using h2
  | succ n ih =>
    unfold loop at h1
    split at h1
    · rename_i hg
      cases hs : p.stepE with
      | ok p1 =>
        rw [hs] at h1
        have : n + 1 + f2 = (n + f2) + 1 := by omega
        rw [this]
        unfold loop
        rw [if_pos (hG p hg), hs]
        exact ih h1
      | error e => rw [hs] at h1; exact absurd h1 (by simp)
    · cases h1
      have := loop_mono h2 (n + 1)
      rwa [Nat.add_comm f2 (n + 1)] at this

theorem loop_det {G : Parser → Bool} {f f' : Nat} {p q q' : Parser}
    (h : loop G f p = Outcome.ok q) (h' : loop G f' p = Outcome.ok q') :
    q = q' := by
  have m1 := loop_mono h f'
  have m2 := loop_mono h' f
  rw [Nat.add_comm f' f] at m2
  have := m1.symm.trans m2
  simpa using this

/-- Executing the `accept` loop over the present prefix `x1`, then viewing
the result with the full input `x1 ++ x2` installed, is a prefix of the
unguarded `run` loop over the full input. -/
theorem loop_acc_transport {x1 x2 : List Nat} {f : Nat} {p q : Parser}
    (htok : p.tokens = x1) (h : loop accGuard f p = Outcome.ok q)
    {F : Nat} {r : Parser}
    (hrun : loop runGuard F (setTokens (x1 ++ x2) q) = Outcome.ok r) :
    loop runGuard (f + F) (setTokens (x1 ++ x2) p) = Outcome.ok r := by
  induction f generalizing p with
  | zero =>
    unfold loop at h
    split at h
    · exact absurd h (by simp)
    · cases h
      simpa using hrun
  | succ n ih =>
    unfold loop at h
    split at h
    · rename_i hg
      have hg' : p.running = true ∧ p.tx < p.tokens.length := by
        simpa [accGuard] using hg
      cases hs : p.stepE with
      | ok p1 =>
        rw [hs] at h
        have htok1 : p1.tokens = x1 := (stepE_tokens hs).trans htok
        have htok' : p.tokens = x1 := htok
        have htrans := stepE_setTokens x2 htok' (htok ▸ hg'.2)
        rw [hs] at htrans
        have : n + 1 + F = (n + F) + 1 := by omega
        rw [this]
        unfold loop
        rw [if_pos (show runGuard (setTokens (x1 ++ x2) p) = true from hg'.1),
          htrans]
        exact ih htok1 h
      | error e => rw [hs] at h; exact absurd h (by simp)
    · cases h
      have := loop_mono hrun (n + 1)
      rwa [Nat.add_comm F (n + 1)] at this

theorem accGuard_imp_runGuard : ∀ s, accGuard s = true → runGuard s = true := by
  intro s h
  have h' : s.running = true ∧ s.tx < s.tokens.length := by
    simpa [accGuard] using h
  simpa [runGuard] using h'.1

theorem acceptRun_ok {p : Parser} {x : List Nat} {f1 f2 : Nat} {q : Parser}
    (h : accept x f1 p = Outcome.ok q) :
    acceptRun p x f1 f2 = run f2 q := by
  rw [acceptRun, h]

theorem acceptRun_err {p : Parser} {x : List Nat} {f1 f2 : Nat} {e : String}
    (h : accept x f1 p = Outcome.err e) :
    acceptRun p x f1 f2 = Outcome.err e := by
  rw [acceptRun, h]

theorem acceptRun_timeout {p : Parser} {x : List Nat} {f1 f2 : Nat}
    (h : accept x f1 p = Outcome.timeout) :
    acceptRun p x f1 f2 = Outcome.timeout := by
  rw [acceptRun, h]

theorem acceptAcceptRun_ok {p : Parser} {x1 x2 : List Nat} {f1 f2 f3 : Nat}
    {m : Parser} (h : accept x1 f1 p = Outcome.ok m) :
    acceptAcceptRun p x1 x2 f1 f2 f3 = acceptRun m x2 f2 f3 := by
  rw [acceptAcceptRun, h, acceptRun]

theorem acceptAcceptRun_err {p : Parser} {x1 x2 : List Nat} {f1 f2 f3 : Nat}
    {e : String} (h : accept x1 f1 p = Outcome.err e) :
    acceptAcceptRun p x1 x2 f1 f2 f3 = Outcome.err e := by
  rw [acceptAcceptRun, h]

theorem acceptAcceptRun_timeout {p : Parser} {x1 x2 : List Nat}
    {f1 f2 f3 : Nat} (h : accept x1 f1 p = Outcome.timeout) :
    acceptAcceptRun p x1 x2 f1 f2 f3 = Outcome.timeout := by
  rw [acceptAcceptRun, h]

/-- C2: incremental equivalence.  On a fresh parser, whenever both
`accept(x1 ++ x2); run()` and `accept(x1); accept(x2); run()` run to a
halt, they halt in states with identical `status`, identical `cursor`
and identical `result()` (indeed identical states). -/
theorem claim_C2 (g : Grammar) (start : String) (x1 x2 : List Nat)
    (fA fB f1 f2 f3 : Nat) {sF sG : Parser}
    (hA : acceptRun (Parser.mk0 g start) (x1 ++ x2) fA fB = Outcome.ok sF)
    (hB : acceptAcceptRun (Parser.mk0 g start) x1 x2 f1 f2 f3 = Outcome.ok sG) :
    sG.status = sF.status ∧ sG.tx = sF.tx ∧
      Parser.result sG = Parser.result sF := by
  have hAeq : sG = sF := by
    -- Reduce pipeline A to one unguarded loop over the full input.
    cases haccA : accept (x1 ++ x2) fA (Parser.mk0 g start) with
    | err e => rw [acceptRun_err haccA] at hA; exact absurd hA (by simp)
    | timeout => rw [acceptRun_timeout haccA] at hA; exact absurd hA (by simp)
    | ok m =>
      rw [acceptRun_ok haccA] at hA
      have haccA' : loop accGuard fA (setTokens (x1 ++ x2) (Parser.mk0 g start)) =
          Outcome.ok m := by
        have : accept (x1 ++ x2) fA (Parser.mk0 g start) =
            loop accGuard fA (setTokens (x1 ++ x2) (Parser.mk0 g start)) := by
          simp [accept, setTokens, Parser.mk0]
        rw [← this]
        exact haccA
      have hfullA : loop runGuard (fA + fB)
          (setTokens (x1 ++ x2) (Parser.mk0 g start)) = Outcome.ok sF :=
        loop_append accGuard_imp_runGuard haccA'
          (show loop runGuard fB m = Outcome.ok sF from hA)
      -- Reduce pipeline B to the same loop.
      cases hacc1 : accept x1 f1 (Parser.mk0 g start) with
      | err e =>
        rw [acceptAcceptRun_err hacc1] at hB
        exact absurd hB (by simp)
      | timeout =>
        rw [acceptAcceptRun_timeout hacc1] at hB
        exact absurd hB (by simp)
      | ok m1 =>
        rw [acceptAcceptRun_ok hacc1] at hB
        have hacc1' : loop accGuard f1 (setTokens x1 (Parser.mk0 g start)) =
            Outcome.ok m1 := by
          have : accept x1 f1 (Parser.mk0 g start) =
              loop accGuard f1 (setTokens x1 (Parser.mk0 g start)) := by
            simp [accept, setTokens, Parser.mk0]
          rw [← this]
          exact hacc1
        have htokm1 : m1.tokens = x1 := loop_tokens hacc1'
        cases hacc2 : accept x2 f2 m1 with
        | err e => rw [acceptRun_err hacc2] at hB; exact absurd hB (by simp)
        | timeout =>
          rw [acceptRun_timeout hacc2] at hB
          exact absurd hB (by simp)
        | ok m2 =>
          rw [acceptRun_ok hacc2] at hB
          have hacc2' : loop accGuard f2 (setTokens (x1 ++ x2) m1) =
              Outcome.ok m2 := by
            have heq : accept x2 f2 m1 =
                loop accGuard f2 (setTokens (x1 ++ x2) m1) := by
              rw [accept]
              rw [show ({ m1 with tokens := m1.tokens ++ x2 } : Parser) =
                setTokens (x1 ++ x2) m1 by rw [setTokens, htokm1]]
            rw [← heq]
            exact hacc2
          have happB : loop runGuard (f2 + f3) (setTokens (x1 ++ x2) m1) =
              Outcome.ok sG :=
            loop_append accGuard_imp_runGuard hacc2'
              (show loop runGuard f3 m2 = Outcome.ok sG from hB)
          have hfullB : loop runGuard (f1 + (f2 + f3))
              (setTokens (x1 ++ x2) (Parser.mk0 g start)) = Outcome.ok sG :=
            loop_acc_transport
              (show (setTokens x1 (Parser.mk0 g start)).tokens = x1 from rfl)
              hacc1' happB
          exact loop_det hfullB hfullA
  rw [hAeq]
  exact ⟨rfl, rfl, rfl⟩

/-- C2 (witness): on the `"ab"` grammar, feeding `"ab"` at once and
feeding `"a"` then `"b"` halt with the same status, cursor and result. -/
theorem claim_C2_witness :
    ∃ sF sG,
      acceptRun (Parser.mk0 gAB "S") ([97] ++ [98]) 30 30 = Outcome.ok sF ∧
      acceptAcceptRun (Parser.mk0 gAB "S") [97] [98] 30 30 30 = Outcome.ok sG ∧
      sG.status = sF.status ∧ sG.tx = sF.tx ∧
        Parser.result sG = Parser.result sF := by
  refine ⟨_, _, rfl, rfl, ?_⟩
  exact claim_C2 gAB "S" [97] [98] 30 30 30 30 30 rfl rfl

/-- C3 (counterexample): `litteral("Hello")` does not compile to the five
`char` instructions alone — it emits seven instructions, wrapping the
chars in `frame … reduce JOIN`; only the empty-string case matches the
claim verbatim. -/
theorem claim_C3_counterexample :
    ¬ (litteral [72, 101, 108, 108, 111] =
        List.map Instr.char [72, 101, 108, 108, 111]) ∧
    (litteral [72, 101, 108, 108, 111]).length = 7 ∧
    litteral [] = [] := by
  refine ⟨fun h => ?_, rfl, rfl⟩
  exact absurd (congrArg List.length h) (by decide)

/-- C3 (amended): `litteral(s)` emits exactly one `char` instruction per
scalar of `s`, in order; when `s` has more than one scalar this run of
`char`s is additionally wrapped in a `frame` instruction before and a
`reduce JOIN` after; the empty string emits no instructions and a
one-scalar string emits exactly its single `char`. -/
theorem claim_C3_amended (str : List Nat) :
    litteral str =
      (if 1 < str.length then
        Instr.frame :: (str.map Instr.char ++ [Instr.reduce (some Fn.join)])
      else str.map Instr.char) ∧
    (litteral str).filter isCharInstr = str.map Instr.char := by
  have hfilter : (str.map Instr.char).filter isCharInstr = str.map Instr.char :=
    List.filter_eq_self.mpr (by
      intro a ha
      obtain ⟨c, _, rfl⟩ := List.mem_map.1 ha
      rfl)
  by_cases h : 1 < str.length <;>
    simp [litteral, h, List.filter_append, hfilter, isCharInstr]

/-- C4 (counterexample): the three-character spec `"b-a"` (first scalar
exceeds the third) contributes nothing at all to the set — not its three
scalars individually as the claim states. -/
theorem claim_C4_counterexample :
    charsetGen [[98, 45, 97]] = [] ∧
    (charset [[98, 45, 97]]).mem 98 = false ∧
    (charset [[98, 45, 97]]).mem 45 = false := by
  refine ⟨rfl, rfl, rfl⟩

/-- C4 (amended): in charset construction (and in union/difference, which
reuse the same generator) a three-character spec whose middle scalar is
`"-"` is always treated as a range: it contributes exactly the code
points from its first through its third scalar, hence nothing at all
when the first exceeds the third; every other spec contributes each of
its scalars individually. -/
theorem claim_C4_amended (specs : List (List Nat)) (i : Nat) :
    (i ∈ charsetGen specs ↔ ∃ spec ∈ specs,
      (if spec.length = 3 ∧ spec.get? 1 = some 45 then
        spec.headD 0 ≤ i ∧ i ≤ spec.getD 2 0
      else i ∈ spec)) ∧
    ((charset specs).mem i = true ↔ i ∈ charsetGen specs) ∧
    (∀ (c : Charset),
      ((c.union specs).mem i = true ↔ (c.mem i = true ∨ i ∈ charsetGen specs)) ∧
      ((c.difference specs).mem i = true ↔
        (c.mem i = true ∧ i ∉ charsetGen specs))) := by
  refine ⟨?_, by simp [charset, Charset.mem], fun c => ⟨?_, ?_⟩⟩
  · induction specs with
    | nil => simp [charsetGen]
    | cons spec rest ih =>
      by_cases h : spec.length = 3 ∧ spec.get? 1 = some 45
      · rw [show charsetGen (spec :: rest) =
            List.range' (spec.headD 0) (spec.getD 2 0 + 1 - spec.headD 0) ++
              charsetGen rest by rw [charsetGen, if_pos h]]
        simp only [List.mem_append, ih, List.mem_range'_1, List.mem_cons]
        constructor
        · rintro (hr | ⟨s, hs, hif⟩)
          · exact ⟨spec, Or.inl rfl, by rw [if_pos h]; omega⟩
          · exact ⟨s, Or.inr hs, hif⟩
        · rintro ⟨s, hs | hs, hif⟩
          · subst hs
            rw [if_pos h] at hif
            left
            omega
          · exact Or.inr ⟨s, hs, hif⟩
      · rw [show charsetGen (spec :: rest) = spec ++ charsetGen rest by
            rw [charsetGen, if_neg h]]
        simp only [List.mem_append, ih, List.mem_cons]
        constructor
        · rintro (hr | ⟨s, hs, hif⟩)
          · exact ⟨spec, Or.inl rfl, by rw [if_neg h]; exact hr⟩
          · exact ⟨s, Or.inr hs, hif⟩
        · rintro ⟨s, hs | hs, hif⟩
          · subst hs
            rw [if_neg h] at hif
            exact Or.inl hif
          · exact Or.inr ⟨s, hs, hif⟩
  · simp [Charset.union, Charset.mem]
  · simp [Charset.difference, Charset.mem, List.mem_filter]

/-- C5: `move d` adds `d` to the cursor; when the destination is not
negative nothing else changes — in particular a destination past the end
of the input is accepted without failure — and when the destination is
negative the instruction executes the `fail` primitive, e.g. `move (-1)`
at `cursor == 0`. -/
theorem claim_C5 (p : Parser) (d : Int) :
    (0 ≤ (p.tx : Int) + d →
      ((Parser.move p d).tx : Int) = (p.tx : Int) + d ∧
      (Parser.move p d).running = p.running ∧
      (Parser.move p d).status = p.status ∧
      (Parser.move p d).bp = p.bp ∧
      (Parser.move p d).sx = p.sx ∧
      (Parser.move p d).fx = p.fx ∧
      (Parser.move p d).stack = p.stack) ∧
    ((p.tx : Int) + d < 0 → Parser.move p d = p.fail) ∧
    (p.tx = 0 → d = -1 → Parser.move p d = p.fail) := by
  refine ⟨fun h => ?_, fun h => ?_, fun h0 hd => ?_⟩
  · have hlt : ¬ ((p.tx : Int) + d < 0) := not_lt.mpr h
    simp [Parser.move, hlt]
    omega
  · simp [Parser.move, h]
  · subst hd
    simp [Parser.move, h0]

/-- C5 (witness): `move (-1)` at cursor 0 on a fresh parser executes the
`fail` primitive. -/
theorem claim_C5_witness :
    Parser.move (Parser.mk0 ⟨[]⟩ "S") (-1) = (Parser.mk0 ⟨[]⟩ "S").fail :=
  (claim_C5 (Parser.mk0 ⟨[]⟩ "S") (-1)).2.2 rfl rfl

/-- C7: `Grammar.get` raises the fatal rule-not-found error exactly when
the name is absent from the rule map; `define` stores the program (with
`ret action` appended) unconditionally, never inspecting the rule
references it contains — so forward references are legal — and a `jsr`
on an undefined name is the point where the error surfaces, during
execution. -/
theorem claim_C7 :
    (∀ (g : Grammar) (name : String),
      ((∃ e, Grammar.get g name = Except.error e) ↔
        g.rules.find? (fun r => r.1 = name) = none)) ∧
    (∀ (g : Grammar) (name : String) (program : List Instr) (action : Option Fn),
      (Grammar.define g name program action).rules =
        (name, program ++ [Instr.ret action]) :: g.rules) ∧
    (∀ (p : Parser) (nt : String), p.code[p.pc]? = some (Instr.jsr nt) →
      ((∃ e, Parser.stepE p = Except.error e) ↔
        p.grammar.rules.find? (fun r => r.1 = nt) = none)) := by
  refine ⟨fun g name => ?_, fun g name program action => rfl, fun p nt h => ?_⟩
  · cases hf : g.rules.find? (fun r => r.1 = name) with
    | none => simp [Grammar.get, hf]
    | some r => simp [Grammar.get, hf]
  · cases hf : p.grammar.rules.find? (fun r => r.1 = nt) with
    | none => simp [Parser.stepE, h, Parser.jsrStep, Grammar.get, hf]
    | some r => simp [Parser.stepE, h, Parser.jsrStep, Grammar.get, hf]

/-- C7 (witness): on a parser over an empty grammar whose next
instruction is `jsr "missing"`, `step` raises the fatal error. -/
theorem claim_C7_witness :
    (∃ e, Parser.stepE { Parser.mk0 ⟨[]⟩ "missing" with
        code := [Instr.jsr "missing"] } = Except.error e) ↔
      (Grammar.rules ⟨[]⟩).find?
        (fun r => r.1 = "missing") = none :=
  claim_C7.2.2 { Parser.mk0 ⟨[]⟩ "missing" with code := [Instr.jsr "missing"] }
    "missing" rfl

/-- C8: executing `commit` with an empty backtrack chain throws a host
error out of `step` (it is not a parse failure and does not halt the
machine with status `"failure"`); with at least one live record the
instruction succeeds, discarding the top record. -/
theorem claim_C8 (p : Parser) (off : Int)
    (hc : p.code[p.pc]? = some (Instr.commit off)) :
    (p.bp = [] → Parser.stepE p = Except.error commitErr) ∧
    (p.bp ≠ [] → ∃ q, Parser.stepE p = Except.ok q ∧ q.bp = p.bp.tail ∧
      q.running = p.running ∧ q.status = p.status) := by
  refine ⟨fun hbp => ?_, fun hbp => ?_⟩
  · simp [Parser.stepE, hc, hbp]
  · cases hb : p.bp with
    | nil => exact absurd hb hbp
    | cons r rest =>
      refine ⟨{ p with pc := Parser.addOff (p.pc + 1) off
                       cc := p.cc + 1
                       bp := rest }, ?_, by simp [hb], rfl, rfl⟩
      simp [Parser.stepE, hc, hb]

/-- C8 (witness): a parser whose next instruction is `commit 0` with no
live backtrack record makes `step` throw. -/
theorem claim_C8_witness :
    Parser.stepE { Parser.mk0 ⟨[]⟩ "S" with
        code := [Instr.commit 0] } = Except.error commitErr :=
  (claim_C8 { Parser.mk0 ⟨[]⟩ "S" with code := [Instr.commit 0] } 0 rfl).1 rfl

/-- C9: `char` and `charset` can match the null scalar (code point 0):
when the scalar at the cursor is 0, `char 0` matches, and `charset`
matches whenever 0 is in the set; in both cases the scalar is pushed at
`sx` and the cursor advances by one.  `any` at the same position
executes the `fail` primitive instead. -/
theorem claim_C9 (p : Parser) (set : List Nat)
    (h0 : p.tokens[p.tx]? = some 0) (hset : (0 : Nat) ∈ set)
    (hsx : p.sx ≤ p.stack.length) :
    ((Parser.char p 0).tx = p.tx + 1 ∧ (Parser.char p 0).sx = p.sx + 1 ∧
      (Parser.char p 0).stack[p.sx]? = some (Cell.scalar 0) ∧
      (Parser.char p 0).running = p.running ∧
      (Parser.char p 0).status = p.status) ∧
    ((Parser.charsetStep p set).tx = p.tx + 1 ∧
      (Parser.charsetStep p set).sx = p.sx + 1 ∧
      (Parser.charsetStep p set).stack[p.sx]? = some (Cell.scalar 0) ∧
      (Parser.charsetStep p set).running = p.running ∧
      (Parser.charsetStep p set).status = p.status) ∧
    Parser.anyStep p = p.fail := by
  have hw : (Parser.stackWrite p.stack p.sx (Cell.scalar 0))[p.sx]? =
      some (Cell.scalar 0) := by
    rcases lt_or_eq_of_le hsx with hlt | heq
    · rw [Parser.stackWrite, if_pos hlt]
      exact List.getElem?_set_self hlt
    · rw [Parser.stackWrite, if_neg (by omega)]
      simp [heq]
  refine ⟨?_, ?_, ?_⟩
  · simp [Parser.char, h0, Parser.push, hw]
  · simp [Parser.charsetStep, h0, hset, Parser.push, hw]
  · simp [Parser.anyStep, h0]

/-- C9 (witness): with input `"\x00"`, cursor 0 and set `{0}`, `char 0`
and `charset` match the null scalar while `any` fails. -/
theorem claim_C9_witness :
    ((Parser.char { Parser.mk0 ⟨[]⟩ "S" with tokens := [0] } 0).tx = 0 + 1 ∧
      (Parser.char { Parser.mk0 ⟨[]⟩ "S" with tokens := [0] } 0).sx = 0 + 1 ∧
      (Parser.char { Parser.mk0 ⟨[]⟩ "S" with
        tokens := [0] } 0).stack[0]? = some (Cell.scalar 0) ∧
      (Parser.char { Parser.mk0 ⟨[]⟩ "S" with tokens := [0] } 0).running =
        (Parser.mk0 ⟨[]⟩ "S").running ∧
      (Parser.char { Parser.mk0 ⟨[]⟩ "S" with tokens := [0] } 0).status =
        (Parser.mk0 ⟨[]⟩ "S").status) ∧
    ((Parser.charsetStep { Parser.mk0 ⟨[]⟩ "S" with
        tokens := [0] } [0]).tx = 0 + 1 ∧
      (Parser.charsetStep { Parser.mk0 ⟨[]⟩ "S" with
        tokens := [0] } [0]).sx = 0 + 1 ∧
      (Parser.charsetStep { Parser.mk0 ⟨[]⟩ "S" with
        tokens := [0] } [0]).stack[0]? = some (Cell.scalar 0) ∧
      (Parser.charsetStep { Parser.mk0 ⟨[]⟩ "S" with
        tokens := [0] } [0]).running = (Parser.mk0 ⟨[]⟩ "S").running ∧
      (Parser.charsetStep { Parser.mk0 ⟨[]⟩ "S" with
        tokens := [0] } [0]).status = (Parser.mk0 ⟨[]⟩ "S").status) ∧
    Parser.anyStep { Parser.mk0 ⟨[]⟩ "S" with tokens := [0] } =
      Parser.fail { Parser.mk0 ⟨[]⟩ "S" with tokens := [0] } :=
  claim_C9 { Parser.mk0 ⟨[]⟩ "S" with tokens := [0] } [0] rfl (by decide)
    (by decide)

/-- C10: `restart()` leaves the `status` field unchanged (as well as the
cursor) while resetting `running` to `true`; consequently `result()`
returns absent right after a restart even when `status` still holds
`"success"` from the previous halt. -/
theorem claim_C10 (p : Parser) :
    (p.restart).status = p.status ∧ (p.restart).running = true ∧
    (p.restart).tx = p.tx ∧ Parser.result p.restart = none := by
  refine ⟨rfl, rfl, rfl, ?_⟩
  simp [Parser.result, Parser.restart]

-- Unfolding equations for the two `matchAll` functions.

theorem matchAllF_ok {runFuel n : Nat} {p q : Parser}
    (h : (if p.running then run runFuel p else Outcome.ok p) = Outcome.ok q) :
    matchAllF runFuel (n + 1) p =
      (if q.status = Status.success then
        (match matchAllF runFuel n q.restart with
          | MOut.ok ys => MOut.ok (q.stack.getD 0 Cell.undef :: ys)
          | o => o)
      else if q.tx < q.tokens.length then
        matchAllF runFuel n (Parser.restart { q with tx := q.tx + 1 })
      else MOut.ok []) := by
  rw [matchAllF, h]

theorem matchAllF_err {runFuel n : Nat} {p : Parser} {e : String}
    (h : (if p.running then run runFuel p else Outcome.ok p) = Outcome.err e) :
    matchAllF runFuel (n + 1) p = MOut.err e := by
  rw [matchAllF, h]

theorem matchAllF_timeout {runFuel n : Nat} {p : Parser}
    (h : (if p.running then run runFuel p else Outcome.ok p) = Outcome.timeout) :
    matchAllF runFuel (n + 1) p = MOut.timeout := by
  rw [matchAllF, h]

theorem matchAllSpec_ok {runFuel n : Nat} {p q : Parser}
    (h : run runFuel p = Outcome.ok q) :
    matchAllSpec runFuel (n + 1) p =
      (if q.status = Status.success then
        (match matchAllSpec runFuel n q.restart with
          | MOut.ok ys => MOut.ok (q.stack.getD 0 Cell.undef :: ys)
          | o => o)
      else if q.status = Status.failure ∧ q.tx < q.tokens.length then
        matchAllSpec runFuel n (Parser.restart { q with tx := q.tx + 1 })
      else MOut.ok []) := by
  rw [matchAllSpec, h]

theorem matchAllSpec_err {runFuel n : Nat} {p : Parser} {e : String}
    (h : run runFuel p = Outcome.err e) :
    matchAllSpec runFuel (n + 1) p = MOut.err e := by
  rw [matchAllSpec, h]

theorem matchAllSpec_timeout {runFuel n : Nat} {p : Parser}
    (h : run runFuel p = Outcome.timeout) :
    matchAllSpec runFuel (n + 1) p = MOut.timeout := by
  rw [matchAllSpec, h]

/-- C6: `matchAll` behaves exactly as described — it drives the VM to
halt, yields `stack[0]` and restarts on a success halt, advances the
cursor by one and restarts on a failure halt with input remaining, and
ends the sequence on a failure halt with no input remaining: the
source-translated `matchAllF` coincides with the spec-worded
`matchAllSpec` on every machine that is running or carries a stamped
halt status. -/
theorem claim_C6 (runFuel iterFuel : Nat) (p : Parser)
    (hp : p.running = true ∨ p.status ≠ Status.empty) :
    matchAllF runFuel iterFuel p = matchAllSpec runFuel iterFuel p := by
  induction iterFuel generalizing p with
  | zero => rfl
  | succ n ih =>
    have hdrive : (if p.running then run runFuel p else Outcome.ok p) =
        run runFuel p := by
      by_cases hr : p.running
      · rw [if_pos hr]
      · rw [if_neg hr, run]
        exact (loop_guard_false
          (show runGuard p = false from Bool.eq_false_iff.mpr hr) runFuel).symm
    cases hrun : run runFuel p with
    | err e => rw [matchAllF_err (hdrive.trans hrun), matchAllSpec_err hrun]
    | timeout =>
      rw [matchAllF_timeout (hdrive.trans hrun), matchAllSpec_timeout hrun]
    | ok q =>
      rw [matchAllF_ok (hdrive.trans hrun), matchAllSpec_ok hrun]
      obtain ⟨hqr, hqs⟩ := run_ok_status hrun hp
      by_cases hs : q.status = Status.success
      · rw [if_pos hs, if_pos hs,
          show matchAllF runFuel n q.restart = matchAllSpec runFuel n q.restart
            from ih _ (Or.inl rfl)]
      · have hf : q.status = Status.failure := by
          rcases hqs with h1 | h1
          · exact absurd h1 hs
          · exact h1
        rw [if_neg hs, if_neg hs]
        by_cases htx : q.tx < q.tokens.length
        · rw [if_pos htx, if_pos ⟨hf, htx⟩]
          exact ih _ (Or.inl rfl)
        · rw [if_neg htx, if_neg (fun hc => htx hc.2)]

/-- C6 (witness): on the `"ab"` grammar scanning the input `"xab ab"`,
the source-translated generator and the spec-worded one agree. -/
theorem claim_C6_witness :
    matchAllF 50 20 { Parser.mk0 gAB "S" with
        tokens := [120, 97, 98, 32, 97, 98] } =
      matchAllSpec 50 20 { Parser.mk0 gAB "S" with
        tokens := [120, 97, 98, 32, 97, 98] } :=
  claim_C6 50 20 _ (Or.inl rfl)

-- Infrastructure for the predicate frame theorems (C1): composition of
-- raw step sequences, stack-write bookkeeping, and the `Reach` algebra.

theorem stepsN_cons_ok {s q : Parser} {n : Nat} (hs : s.stepE = Except.ok q) :
    Parser.stepsN (n + 1) s = Parser.stepsN n q := by
  show (match s.stepE with
    | Except.ok q => Parser.stepsN n q
    | Except.error e => Except.error e) = Parser.stepsN n q
  rw [hs]

theorem stepsN_append {m n : Nat} {s t : Parser}
    (h : Parser.stepsN m s = Except.ok t) : Parser.stepsN (m + n) s = Parser.stepsN n t := by
  induction m generalizing s with
  | zero =>
    cases h
    simp [Nat.zero_add]
  | succ k ih =>
    cases hs : s.stepE with
    | ok q =>
      rw [stepsN_cons_ok hs] at h
      have : k + 1 + n = (k + n) + 1 := by omega
      rw [this, stepsN_cons_ok hs]
      exact ih h
    | error e =>
      rw [show Parser.stepsN (k + 1) s = Except.error e by unfold Parser.stepsN; rw [hs]] at h
      exact absurd h (by simp)

theorem stackWrite_bounds {st : List Cell} {i : Nat} (v : Cell)
    (h : i ≤ st.length) :
    i + 1 ≤ (Parser.stackWrite st i v).length ∧
      st.length ≤ (Parser.stackWrite st i v).length := by
  unfold Parser.stackWrite
  by_cases hi : i < st.length
  · simp [hi]
    omega
  · have : i = st.length := by omega
    simp [hi, this]

theorem stackWrite_prefix {st : List Cell} {i j : Nat} {v : Cell}
    (hj : j < i) (hi : i ≤ st.length) :
    (Parser.stackWrite st i v)[j]? = st[j]? := by
  unfold Parser.stackWrite
  by_cases hlt : i < st.length
  · rw [if_pos hlt]
    exact List.getElem?_set_ne (by omega)
  · rw [if_neg hlt]
    exact List.getElem?_append_left (by omega)

theorem Reach.rfl' (s : Parser) : Reach s s :=
  ⟨rfl, rfl, rfl, Nat.le_refl _, rfl, rfl, rfl, rfl,
    fun h => ⟨h, fun _ _ => rfl⟩⟩

theorem Reach.trans' {s q t : Parser} (h1 : Reach s q) (h2 : Reach q t) :
    Reach s t := by
  refine ⟨h2.code.trans h1.code, h2.bp.trans h1.bp, h2.fx.trans h1.fx,
    Nat.le_trans h1.sx_le h2.sx_le, h2.tokens.trans h1.tokens,
    h2.grammar.trans h1.grammar, h2.running.trans h1.running,
    h2.status.trans h1.status, fun hs => ?_⟩
  obtain ⟨hq, hpre1⟩ := h1.stack hs
  obtain ⟨ht, hpre2⟩ := h2.stack hq
  exact ⟨ht, fun j hj =>
    (hpre2 j (Nat.lt_of_lt_of_le hj h1.sx_le)).trans (hpre1 j hj)⟩

theorem Reach.bump (s : Parser) : Reach s (bump s) :=
  ⟨rfl, rfl, rfl, Nat.le_refl _, rfl, rfl, rfl, rfl,
    fun h => ⟨h, fun _ _ => rfl⟩⟩

/-- `push` (optionally combined with a cursor move) is a `Reach` step. -/
theorem Reach.push_tx (s : Parser) (v : Cell) (t : Nat) :
    Reach s { s.push v with tx := t } := by
  refine ⟨rfl, rfl, rfl, ?_, rfl, rfl, rfl, rfl, fun h => ?_⟩
  · show s.sx ≤ s.sx + 1
    omega
  · obtain ⟨h1, h2⟩ := stackWrite_bounds v h
    exact ⟨h1, fun j hj => stackWrite_prefix hj h⟩

theorem Reach.tx (s : Parser) (t : Nat) : Reach s { s with tx := t } :=
  ⟨rfl, rfl, rfl, Nat.le_refl _, rfl, rfl, rfl, rfl,
    fun h => ⟨h, fun _ _ => rfl⟩⟩

/-- Indexing an instruction inside the middle segment of a code list. -/
theorem code_get_mid (D L E : List Instr) (k : Nat) (hk : k < L.length) :
    (D ++ L ++ E)[D.length + k]? = L[k]? := by
  rw [List.append_assoc,
    List.getElem?_append_right (show D.length ≤ D.length + k by omega)]
  simp only [Nat.add_sub_cancel_left]
  exact List.getElem?_append_left hk

-- Branch equations for the consuming handlers.

theorem char_eq_none {p : Parser} {c : Nat} (hT : p.tokens[p.tx]? = none) :
    p.char c = p.fail := by
  unfold Parser.char; rw [hT]

theorem char_eq_miss {p : Parser} {c t : Nat} (hT : p.tokens[p.tx]? = some t)
    (h : t ≠ c) : p.char c = p.fail := by
  unfold Parser.char; rw [hT]; simp [h]

theorem char_eq_push {p : Parser} {c t : Nat} (hT : p.tokens[p.tx]? = some t)
    (h : t = c) :
    p.char c = { p.push (Cell.scalar t) with tx := p.tx + 1 } := by
  unfold Parser.char; rw [hT]; simp [h, Parser.push]

theorem charset_eq_none {p : Parser} {set : List Nat}
    (hT : p.tokens[p.tx]? = none) : p.charsetStep set = p.fail := by
  unfold Parser.charsetStep; rw [hT]

theorem charset_eq_miss {p : Parser} {set : List Nat} {t : Nat}
    (hT : p.tokens[p.tx]? = some t) (h : t ∉ set) :
    p.charsetStep set = p.fail := by
  unfold Parser.charsetStep; rw [hT]; simp [h]

theorem charset_eq_push {p : Parser} {set : List Nat} {t : Nat}
    (hT : p.tokens[p.tx]? = some t) (h : t ∈ set) :
    p.charsetStep set = { p.push (Cell.scalar t) with tx := p.tx + 1 } := by
  unfold Parser.charsetStep; rw [hT]; simp [h, Parser.push]

theorem any_eq_none {p : Parser} (hT : p.tokens[p.tx]? = none) :
    p.anyStep = p.fail := by
  unfold Parser.anyStep; rw [hT]

theorem any_eq_null {p : Parser} {t : Nat} (hT : p.tokens[p.tx]? = some t)
    (h : ¬ t ≠ 0) : p.anyStep = p.fail := by
  unfold Parser.anyStep; rw [hT]; simp [h]

theorem any_eq_push {p : Parser} {t : Nat} (hT : p.tokens[p.tx]? = some t)
    (h : t ≠ 0) :
    p.anyStep = { p.push (Cell.scalar t) with tx := p.tx + 1 } := by
  unfold Parser.anyStep; rw [hT]; simp [h, Parser.push]

theorem move_eq_fail {p : Parser} {d : Int} (h : (p.tx : Int) + d < 0) :
    p.move d = p.fail := by
  unfold Parser.move; rw [if_pos h]

theorem move_eq_tx {p : Parser} {d : Int} (h : ¬ (p.tx : Int) + d < 0) :
    p.move d = { p with tx := ((p.tx : Int) + d).toNat } := by
  unfold Parser.move; rw [if_neg h]

/-- Straight-line execution: a program of token-testing instructions
embedded in a larger code list either runs to its end — a `Reach` step,
with the pc just past it — or reaches a failing test after `jn` of its
instructions, whereupon the `fail` primitive executes in a state that is
still a `Reach` of the entry (in particular with the entry's backtrack
chain intact). -/
theorem straightRun :
    ∀ (P : List Instr), (∀ i ∈ P, tokenInstr i = true) →
    ∀ (D E : List Instr) (s : Parser),
      s.code = D ++ P ++ E → s.pc = D.length →
      (∃ s', Parser.stepsN P.length s = Except.ok s' ∧ Reach s s' ∧
        s'.pc = D.length + P.length) ∨
      (∃ jn w, jn < P.length ∧
        Parser.stepsN (jn + 1) s = Except.ok (Parser.fail w) ∧ Reach s w) := by
  intro P
  induction P with
  | nil =>
    intro hP D E s hcode hpc
    exact Or.inl ⟨s, rfl, Reach.rfl' s, by simpa using hpc⟩
  | cons a P' ih =>
    intro hP D E s hcode hpc
    have hPa : tokenInstr a = true := hP a (List.mem_cons_self a P')
    have hP' : ∀ i ∈ P', tokenInstr i = true := fun i hi =>
      hP i (List.mem_cons_of_mem a hi)
    have hfetch : s.code[s.pc]? = some a := by
      rw [hcode, hpc]
      have h0 := code_get_mid D (a :: P') E 0 (by simp)
      simpa using h0
    have lift : ∀ (q : Parser), s.stepE = Except.ok q → Reach s q →
        q.pc = D.length + 1 →
        (∃ s', Parser.stepsN (a :: P').length s = Except.ok s' ∧ Reach s s' ∧
          s'.pc = D.length + (a :: P').length) ∨
        (∃ jn w, jn < (a :: P').length ∧
          Parser.stepsN (jn + 1) s = Except.ok (Parser.fail w) ∧ Reach s w) := by
      intro q hq hreach hqpc
      have hqcode : q.code = (D ++ [a]) ++ P' ++ E := by
        rw [hreach.code, hcode]
        simp
      have hqpc' : q.pc = (D ++ [a]).length := by simp [hqpc]
      rcases ih hP' (D ++ [a]) E q hqcode hqpc' with
        ⟨s', hsteps, hr, hpc'⟩ | ⟨jn, w, hjn, hsteps, hr⟩
      · refine Or.inl ⟨s', ?_, Reach.trans' hreach hr, ?_⟩
        · rw [show (a :: P').length = P'.length + 1 from rfl, stepsN_cons_ok hq]
          exact hsteps
        · simp only [List.length_append, List.length_cons, List.length_nil] at hpc' ⊢
          omega
      · refine Or.inr ⟨jn + 1, w, by simp; omega, ?_, Reach.trans' hreach hr⟩
        rw [show jn + 1 + 1 = (jn + 1) + 1 from rfl, stepsN_cons_ok hq]
        exact hsteps
    have failNow : ∀ (w : Parser), s.stepE = Except.ok (Parser.fail w) →
        Reach s w →
        (∃ s', Parser.stepsN (a :: P').length s = Except.ok s' ∧ Reach s s' ∧
          s'.pc = D.length + (a :: P').length) ∨
        (∃ jn w', jn < (a :: P').length ∧
          Parser.stepsN (jn + 1) s = Except.ok (Parser.fail w') ∧
          Reach s w') := by
      intro w hw hr
      refine Or.inr ⟨0, w, by simp, ?_, hr⟩
      rw [show (0 : Nat) + 1 = 0 + 1 from rfl, stepsN_cons_ok hw]
      rfl
    cases a with
    | char c =>
      have hstep := stepE_char hfetch
      cases hT : s.tokens[s.tx]? with
      | none =>
        refine failNow (bump s) ?_ (Reach.bump s)
        rw [hstep, char_eq_none (show (bump s).tokens[(bump s).tx]? = none from hT)]
      | some t =>
        by_cases htc : t = c
        · refine lift { (bump s).push (Cell.scalar t) with tx := (bump s).tx + 1 }
            ?_ (Reach.trans' (Reach.bump s) (Reach.push_tx (bump s) _ _)) ?_
          · rw [hstep, char_eq_push
              (show (bump s).tokens[(bump s).tx]? = some t from hT) htc]
          · show (bump s).pc = D.length + 1
            simp [bump, hpc]
        · refine failNow (bump s) ?_ (Reach.bump s)
          rw [hstep, char_eq_miss
            (show (bump s).tokens[(bump s).tx]? = some t from hT) htc]
    | charset set =>
      have hstep := stepE_charset hfetch
      cases hT : s.tokens[s.tx]? with
      | none =>
        refine failNow (bump s) ?_ (Reach.bump s)
        rw [hstep,
          charset_eq_none (show (bump s).tokens[(bump s).tx]? = none from hT)]
      | some t =>
        by_cases htc : t ∈ set
        · refine lift { (bump s).push (Cell.scalar t) with tx := (bump s).tx + 1 }
            ?_ (Reach.trans' (Reach.bump s) (Reach.push_tx (bump s) _ _)) ?_
          · rw [hstep, charset_eq_push
              (show (bump s).tokens[(bump s).tx]? = some t from hT) htc]
          · show (bump s).pc = D.length + 1
            simp [bump, hpc]
        · refine failNow (bump s) ?_ (Reach.bump s)
          rw [hstep, charset_eq_miss
            (show (bump s).tokens[(bump s).tx]? = some t from hT) htc]
    | any =>
      have hstep := stepE_any hfetch
      cases hT : s.tokens[s.tx]? with
      | none =>
        refine failNow (bump s) ?_ (Reach.bump s)
        rw [hstep, any_eq_none (show (bump s).tokens[(bump s).tx]? = none from hT)]
      | some t =>
        by_cases htc : t ≠ 0
        · refine lift { (bump s).push (Cell.scalar t) with tx := (bump s).tx + 1 }
            ?_ (Reach.trans' (Reach.bump s) (Reach.push_tx (bump s) _ _)) ?_
          · rw [hstep, any_eq_push
              (show (bump s).tokens[(bump s).tx]? = some t from hT) htc]
          · show (bump s).pc = D.length + 1
            simp [bump, hpc]
        · refine failNow (bump s) ?_ (Reach.bump s)
          rw [hstep, any_eq_null
            (show (bump s).tokens[(bump s).tx]? = some t from hT) htc]
    | move d =>
      have hstep := stepE_move hfetch
      by_cases hd : ((bump s).tx : Int) + d < 0
      · refine failNow (bump s) ?_ (Reach.bump s)
        rw [hstep, move_eq_fail hd]
      · refine lift { bump s with tx := (((bump s).tx : Int) + d).toNat } ?_
          (Reach.trans' (Reach.bump s) (Reach.tx (bump s) _)) ?_
        · rw [hstep, move_eq_tx hd]
        · show (bump s).pc = D.length + 1
          simp [bump, hpc]
    | pushd v =>
      have hstep := stepE_pushd hfetch
      refine lift ((bump s).push v) hstep
        (Reach.trans' (Reach.bump s) ?_) ?_
      · have h0 := Reach.push_tx (bump s) v ((bump s).push v).tx
        simpa using h0
      · show (bump s).pc = D.length + 1
        simp [bump, hpc]
    | jsr name => simp [tokenInstr] at hPa
    | ret f => simp [tokenInstr] at hPa
    | call f => simp [tokenInstr] at hPa
    | frame => simp [tokenInstr] at hPa
    | drop => simp [tokenInstr] at hPa
    | reduce f => simp [tokenInstr] at hPa
    | choice off => simp [tokenInstr] at hPa
    | commit off => simp [tokenInstr] at hPa
    | fail => simp [tokenInstr] at hPa
    | end_ => simp [tokenInstr] at hPa

-- The two branches of the `fail` primitive, as equations.

theorem fail_nil {p : Parser} (h : p.bp = []) :
    p.fail = { p with running := false, status := Status.failure } := by
  unfold Parser.fail; rw [h]

theorem fail_cons {p : Parser} {r : BTRecord} {rest : List BTRecord}
    (h : p.bp = r :: rest) :
    p.fail = { p with bp := rest, pc := r.pc, code := r.code, tx := r.tx,
                      sx := r.sx, fx := r.fx } := by
  unfold Parser.fail; rw [h]

-- Indexing inside an emitted `not` block.

theorem notP_get_zero (P : List Instr) :
    (notP P)[0]? = some (Instr.choice ((P.length : Int) + 2)) := by
  simp [notP]

theorem notP_get_commit (P : List Instr) :
    (notP P)[P.length + 1]? = some (Instr.commit 0) := by
  show (Instr.choice ((P.length : Int) + 2) ::
    (P ++ [Instr.commit 0, Instr.fail]))[P.length + 1]? = some (Instr.commit 0)
  rw [List.getElem?_cons_succ,
    List.getElem?_append_right (Nat.le_refl P.length)]
  simp

theorem notP_get_fail (P : List Instr) :
    (notP P)[P.length + 2]? = some Instr.fail := by
  show (Instr.choice ((P.length : Int) + 2) ::
    (P ++ [Instr.commit 0, Instr.fail]))[P.length + 2]? = some Instr.fail
  rw [List.getElem?_cons_succ,
    List.getElem?_append_right (show P.length ≤ P.length + 1 by omega)]
  simp

theorem notP_length (P : List Instr) : (notP P).length = P.length + 3 := by
  simp [notP]

/-- Execution of an emitted `not(P)` block over a straight-line body `P`:
either the predicate succeeds — `P` failed — and the machine arrives just
past the block with cursor, stack pointer, frame pointer, backtrack chain
and the stack below the entry `sx` all exactly as on entry; or the
predicate fails — `P` matched — and after exactly `|P|+3` steps the
machine executes the `fail` primitive in a state `w` that records `P`'s
progress (cursor possibly advanced, stack possibly grown) with the
entry's backtrack chain: with no enclosing record the machine then halts
in `failure` keeping `w`'s cursor. -/
theorem notP_run (P : List Instr) (hP : ∀ i ∈ P, tokenInstr i = true)
    (D E : List Instr) (s : Parser)
    (hcode : s.code = D ++ notP P ++ E) (hpc : s.pc = D.length)
    (hsx : s.sx ≤ s.stack.length) :
    (∃ n sE, Parser.stepsN n s = Except.ok sE ∧
      sE.pc = D.length + P.length + 3 ∧ sE.code = s.code ∧ sE.tx = s.tx ∧
      sE.sx = s.sx ∧ sE.fx = s.fx ∧ sE.bp = s.bp ∧ sE.tokens = s.tokens ∧
      sE.running = s.running ∧ sE.status = s.status ∧
      (∀ j, j < s.sx → sE.stack[j]? = s.stack[j]?)) ∨
    (∃ w, Parser.stepsN (P.length + 3) s = Except.ok (Parser.fail w) ∧
      w.bp = s.bp ∧ w.code = s.code ∧ w.fx = s.fx ∧ s.sx ≤ w.sx ∧
      w.tokens = s.tokens ∧ w.running = s.running ∧ w.status = s.status ∧
      (∀ j, j < s.sx → w.stack[j]? = s.stack[j]?) ∧
      (s.bp = [] → (Parser.fail w).running = false ∧
        (Parser.fail w).status = Status.failure ∧
        (Parser.fail w).tx = w.tx)) := by
  -- Step 1: the choice instruction records the entry snapshot.
  have hfetch1 : s.code[s.pc]? = some (Instr.choice ((P.length : Int) + 2)) := by
    rw [hcode, hpc]
    have h0 := code_get_mid D (notP P) E 0 (by rw [notP_length]; omega)
    rw [notP_get_zero] at h0
    simpa using h0
  have hstep1 := stepE_choice hfetch1
  have hR : Parser.addOff (s.pc + 1) ((P.length : Int) + 2) =
      D.length + P.length + 3 := by
    unfold Parser.addOff
    omega
  have hR' : Parser.addOff ((bump s).pc) ((P.length : Int) + 2) =
      D.length + P.length + 3 := hR
  have hs1 : (bump s).choiceStep ((P.length : Int) + 2) =
      { bump s with
        bp := ⟨D.length + P.length + 3, s.code, s.tx, s.sx, s.fx⟩ :: s.bp } := by
    unfold Parser.choiceStep
    rw [hR']
    rfl
  rw [hs1] at hstep1
  set R : BTRecord := ⟨D.length + P.length + 3, s.code, s.tx, s.sx, s.fx⟩
    with hRdef
  set s1 : Parser := { bump s with bp := R :: s.bp } with hs1def
  -- Step 2: run the straight-line body.
  have hcode1 : s1.code = (D ++ [Instr.choice ((P.length : Int) + 2)]) ++ P ++
      ([Instr.commit 0, Instr.fail] ++ E) := by
    show s.code = _
    rw [hcode]
    simp [notP]
  have hpc1 : s1.pc = (D ++ [Instr.choice ((P.length : Int) + 2)]).length := by
    show s.pc + 1 = _
    simp [hpc]
  rcases straightRun P hP _ _ s1 hcode1 hpc1 with
    ⟨s2, hsteps2, hr2, hpc2⟩ | ⟨jn, w0, hjn, hstepsf, hr⟩
  · -- P matched: commit, then fail with the entry chain.
    right
    have hbp2 : s2.bp = R :: s.bp := hr2.bp
    have hcode2 : s2.code = s.code := hr2.code
    have hpc2' : s2.pc = D.length + P.length + 1 := by
      rw [hpc2]
      simp
      omega
    have hfetch2 : s2.code[s2.pc]? = some (Instr.commit 0) := by
      rw [hcode2, hcode, hpc2']
      have hm := code_get_mid D (notP P) E (P.length + 1)
        (by rw [notP_length]; omega)
      rw [show D.length + P.length + 1 = D.length + (P.length + 1) by omega]
      rw [hm]
      exact notP_get_commit P
    have hstep3 := stepE_commit_cons hfetch2 hbp2
    set s3 : Parser := { bump s2 with bp := s.bp, pc := Parser.addOff (s2.pc + 1) 0 } with hs3def
    have hpc3 : s3.pc = D.length + P.length + 2 := by
      show Parser.addOff (s2.pc + 1) 0 = _
      unfold Parser.addOff
      omega
    have hfetch3 : s3.code[s3.pc]? = some Instr.fail := by
      show s2.code[s3.pc]? = some Instr.fail
      rw [hcode2, hcode, hpc3]
      have hm := code_get_mid D (notP P) E (P.length + 2)
        (by rw [notP_length]; omega)
      rw [show D.length + P.length + 2 = D.length + (P.length + 2) by omega]
      rw [hm]
      exact notP_get_fail P
    have hstep4 := stepE_fail hfetch3
    refine ⟨bump s3, ?_, ?_, ?_, ?_, ?_, ?_, ?_, ?_, ?_, ?_⟩
    · -- |P|+3 raw steps land on the executed fail.
      have e1 : Parser.stepsN (P.length + 3) s =
          Parser.stepsN (P.length + 2) s1 := by
        rw [show P.length + 3 = (P.length + 2) + 1 by omega,
          stepsN_cons_ok hstep1]
      have e2 : Parser.stepsN (P.length + 2) s1 = Parser.stepsN 2 s2 :=
        stepsN_append hsteps2
      have e3 : Parser.stepsN 2 s2 = Parser.stepsN 1 s3 :=
        stepsN_cons_ok hstep3
      have e4 : Parser.stepsN 1 s3 = Parser.stepsN 0 (bump s3).fail :=
        stepsN_cons_ok hstep4
      rw [e1, e2, e3, e4]
      rfl
    · show s3.bp = s.bp
      rfl
    · show s2.code = s.code
      exact hcode2
    · show s2.fx = s.fx
      exact hr2.fx
    · show s.sx ≤ s2.sx
      exact hr2.sx_le
    · show s2.tokens = s.tokens
      exact hr2.tokens
    · show s2.running = s.running
      exact hr2.running
    · show s2.status = s.status
      exact hr2.status
    · intro j hj
      show s2.stack[j]? = s.stack[j]?
      exact ((hr2.stack hsx).2) j hj
    · intro hbp
      have hwbp : (bump s3).bp = [] := hbp
      rw [fail_nil hwbp]
      exact ⟨rfl, rfl, rfl⟩
  · -- P failed: the recorded snapshot is restored; the predicate succeeds.
    left
    have hw0bp : w0.bp = R :: s.bp := hr.bp
    refine ⟨jn + 2, Parser.fail w0, ?_, ?_, ?_, ?_, ?_, ?_, ?_, ?_, ?_, ?_, ?_⟩
    · rw [show jn + 2 = (jn + 1) + 1 by omega, stepsN_cons_ok hstep1]
      exact hstepsf
    · rw [fail_cons hw0bp]
    · rw [fail_cons hw0bp]
    · rw [fail_cons hw0bp]
    · rw [fail_cons hw0bp]
    · rw [fail_cons hw0bp]
    · rw [fail_cons hw0bp]
    · rw [fail_cons hw0bp]
      exact hr.tokens
    · rw [fail_cons hw0bp]
      exact hr.running
    · rw [fail_cons hw0bp]
      exact hr.status
    · intro j hj
      rw [fail_cons hw0bp]
      show w0.stack[j]? = s.stack[j]?
      exact ((hr.stack hsx).2) j hj

-- Indexing inside an emitted `and` block (`not(not(P))`).

theorem andP_length (P : List Instr) : (andP P).length = P.length + 6 := by
  simp [andP, notP]

theorem andP_get_zero (P : List Instr) :
    (andP P)[0]? = some (Instr.choice (((notP P).length : Int) + 2)) := by
  simp [andP, notP]

theorem andP_get_one (P : List Instr) :
    (andP P)[1]? = some (Instr.choice ((P.length : Int) + 2)) := by
  show (Instr.choice (((notP P).length : Int) + 2) ::
    (notP P ++ [Instr.commit 0, Instr.fail]))[1]? = _
  rw [List.getElem?_cons_succ,
    List.getElem?_append_left (show 0 < (notP P).length by rw [notP_length]; omega)]
  exact notP_get_zero P

theorem andP_get_commit_inner (P : List Instr) :
    (andP P)[P.length + 2]? = some (Instr.commit 0) := by
  show (Instr.choice (((notP P).length : Int) + 2) ::
    (notP P ++ [Instr.commit 0, Instr.fail]))[P.length + 2]? = _
  rw [List.getElem?_cons_succ,
    List.getElem?_append_left
      (show P.length + 1 < (notP P).length by rw [notP_length]; omega)]
  exact notP_get_commit P

theorem andP_get_fail_inner (P : List Instr) :
    (andP P)[P.length + 3]? = some Instr.fail := by
  show (Instr.choice (((notP P).length : Int) + 2) ::
    (notP P ++ [Instr.commit 0, Instr.fail]))[P.length + 3]? = _
  rw [List.getElem?_cons_succ,
    List.getElem?_append_left
      (show P.length + 2 < (notP P).length by rw [notP_length]; omega)]
  exact notP_get_fail P

theorem andP_get_commit_outer (P : List Instr) :
    (andP P)[P.length + 4]? = some (Instr.commit 0) := by
  show (Instr.choice (((notP P).length : Int) + 2) ::
    (notP P ++ [Instr.commit 0, Instr.fail]))[P.length + 4]? = _
  rw [List.getElem?_cons_succ,
    List.getElem?_append_right
      (show (notP P).length ≤ P.length + 3 by rw [notP_length])]
  rw [notP_length]
  simp

theorem andP_get_fail_outer (P : List Instr) :
    (andP P)[P.length + 5]? = some Instr.fail := by
  show (Instr.choice (((notP P).length : Int) + 2) ::
    (notP P ++ [Instr.commit 0, Instr.fail]))[P.length + 5]? = _
  rw [List.getElem?_cons_succ,
    List.getElem?_append_right
      (show (notP P).length ≤ P.length + 4 by rw [notP_length]; omega)]
  rw [notP_length]
  simp

/-- Execution of an emitted `and(P)` block (`not(not(P))`) over a
straight-line body `P`: if `P` matches, the predicate succeeds and the
machine arrives just past the block with cursor, stack pointer, frame
pointer, backtrack chain and the stack below the entry `sx` restored to
their entry values; if `P` fails, both nested backtrack records unwind
and the `fail` primitive executes in a state whose cursor, stack pointer
and frame pointer are already back at the entry values. -/
theorem andP_run (P : List Instr) (hP : ∀ i ∈ P, tokenInstr i = true)
    (D E : List Instr) (s : Parser)
    (hcode : s.code = D ++ andP P ++ E) (hpc : s.pc = D.length)
    (hsx : s.sx ≤ s.stack.length) :
    (∃ n sE, Parser.stepsN n s = Except.ok sE ∧
      sE.pc = D.length + P.length + 6 ∧ sE.code = s.code ∧ sE.tx = s.tx ∧
      sE.sx = s.sx ∧ sE.fx = s.fx ∧ sE.bp = s.bp ∧ sE.tokens = s.tokens ∧
      sE.running = s.running ∧ sE.status = s.status ∧
      (∀ j, j < s.sx → sE.stack[j]? = s.stack[j]?)) ∨
    (∃ n w, Parser.stepsN n s = Except.ok (Parser.fail w) ∧
      w.bp = s.bp ∧ w.code = s.code ∧ w.tx = s.tx ∧ w.sx = s.sx ∧
      w.fx = s.fx ∧ w.tokens = s.tokens ∧ w.running = s.running ∧
      w.status = s.status ∧ (∀ j, j < s.sx → w.stack[j]? = s.stack[j]?) ∧
      (s.bp = [] → (Parser.fail w).running = false ∧
        (Parser.fail w).status = Status.failure ∧
        (Parser.fail w).tx = s.tx)) := by
  -- Step 1: the outer choice.
  have hfetch1 : s.code[s.pc]? =
      some (Instr.choice (((notP P).length : Int) + 2)) := by
    rw [hcode, hpc]
    have h0 := code_get_mid D (andP P) E 0 (by rw [andP_length]; omega)
    rw [andP_get_zero] at h0
    simpa using h0
  have hstep1 := stepE_choice hfetch1
  have hlen : (notP P).length = P.length + 3 := notP_length P
  have hR1' : Parser.addOff ((bump s).pc) (((notP P).length : Int) + 2) =
      D.length + P.length + 6 := by
    show Parser.addOff (s.pc + 1) _ = _
    unfold Parser.addOff
    rw [hlen]
    omega
  have hs1 : (bump s).choiceStep (((notP P).length : Int) + 2) =
      { bump s with
        bp := ⟨D.length + P.length + 6, s.code, s.tx, s.sx, s.fx⟩ :: s.bp } := by
    unfold Parser.choiceStep
    rw [hR1']
    rfl
  rw [hs1] at hstep1
  set R1 : BTRecord := ⟨D.length + P.length + 6, s.code, s.tx, s.sx, s.fx⟩
    with hR1def
  set s1 : Parser := { bump s with bp := R1 :: s.bp } with hs1def
  -- Step 2: the inner choice.
  have hfetch2 : s1.code[s1.pc]? = some (Instr.choice ((P.length : Int) + 2)) := by
    show s.code[s.pc + 1]? = _
    rw [hcode, hpc]
    have h1 := code_get_mid D (andP P) E 1 (by rw [andP_length]; omega)
    rw [andP_get_one] at h1
    simpa using h1
  have hstep2 := stepE_choice hfetch2
  have hR2' : Parser.addOff ((bump s1).pc) ((P.length : Int) + 2) =
      D.length + P.length + 4 := by
    show Parser.addOff (s.pc + 1 + 1) _ = _
    unfold Parser.addOff
    omega
  have hs2 : (bump s1).choiceStep ((P.length : Int) + 2) =
      { bump s1 with
        bp := ⟨D.length + P.length + 4, s.code, s.tx, s.sx, s.fx⟩ :: R1 :: s.bp } := by
    unfold Parser.choiceStep
    rw [hR2']
    rfl
  rw [hs2] at hstep2
  set R2 : BTRecord := ⟨D.length + P.length + 4, s.code, s.tx, s.sx, s.fx⟩
    with hR2def
  set s2 : Parser := { bump s1 with bp := R2 :: R1 :: s.bp } with hs2def
  -- Step 3: run the straight-line body.
  have hcode2 : s2.code = (D ++ [Instr.choice (((notP P).length : Int) + 2),
      Instr.choice ((P.length : Int) + 2)]) ++ P ++
      ([Instr.commit 0, Instr.fail, Instr.commit 0, Instr.fail] ++ E) := by
    show s.code = _
    rw [hcode]
    simp [andP, notP]
  have hpc2 : s2.pc = (D ++ [Instr.choice (((notP P).length : Int) + 2),
      Instr.choice ((P.length : Int) + 2)]).length := by
    show s.pc + 1 + 1 = _
    simp [hpc]
  rcases straightRun P hP _ _ s2 hcode2 hpc2 with
    ⟨s3, hsteps3, hr3, hpc3⟩ | ⟨jn, w0, hjn, hstepsf, hr⟩
  · -- P matched: inner commit, inner fail, restore R1 — success exit.
    left
    have hbp3 : s3.bp = R2 :: R1 :: s.bp := hr3.bp
    have hcode3 : s3.code = s.code := hr3.code
    have hpc3' : s3.pc = D.length + P.length + 2 := by
      rw [hpc3]
      simp
      omega
    have hfetchci : s3.code[s3.pc]? = some (Instr.commit 0) := by
      rw [hcode3, hcode, hpc3']
      have hm := code_get_mid D (andP P) E (P.length + 2)
        (by rw [andP_length]; omega)
      rw [show D.length + P.length + 2 = D.length + (P.length + 2) by omega, hm]
      exact andP_get_commit_inner P
    have hstepci := stepE_commit_cons hfetchci hbp3
    set s4 : Parser := { bump s3 with bp := R1 :: s.bp, pc := Parser.addOff (s3.pc + 1) 0 } with hs4def
    have hpc4 : s4.pc = D.length + P.length + 3 := by
      show Parser.addOff (s3.pc + 1) 0 = _
      unfold Parser.addOff
      omega
    have hfetchfi : s4.code[s4.pc]? = some Instr.fail := by
      show s3.code[s4.pc]? = _
      rw [hcode3, hcode, hpc4]
      have hm := code_get_mid D (andP P) E (P.length + 3)
        (by rw [andP_length]; omega)
      rw [show D.length + P.length + 3 = D.length + (P.length + 3) by omega, hm]
      exact andP_get_fail_inner P
    have hstepfi := stepE_fail hfetchfi
    have hw1bp : (bump s4).bp = R1 :: s.bp := rfl
    refine ⟨P.length + 4, Parser.fail (bump s4), ?_, ?_, ?_, ?_, ?_, ?_, ?_,
      ?_, ?_, ?_, ?_⟩
    · have e1 : Parser.stepsN (P.length + 4) s =
          Parser.stepsN (P.length + 3) s1 := by
        rw [show P.length + 4 = (P.length + 3) + 1 by omega,
          stepsN_cons_ok hstep1]
      have e2 : Parser.stepsN (P.length + 3) s1 =
          Parser.stepsN (P.length + 2) s2 := by
        rw [show P.length + 3 = (P.length + 2) + 1 by omega,
          stepsN_cons_ok hstep2]
      have e3 : Parser.stepsN (P.length + 2) s2 = Parser.stepsN 2 s3 :=
        stepsN_append hsteps3
      have e4 : Parser.stepsN 2 s3 = Parser.stepsN 1 s4 := stepsN_cons_ok hstepci
      have e5 : Parser.stepsN 1 s4 = Parser.stepsN 0 (bump s4).fail :=
        stepsN_cons_ok hstepfi
      rw [e1, e2, e3, e4, e5]
      rfl
    · rw [fail_cons hw1bp]
    · rw [fail_cons hw1bp]
    · rw [fail_cons hw1bp]
    · rw [fail_cons hw1bp]
    · rw [fail_cons hw1bp]
    · rw [fail_cons hw1bp]
    · rw [fail_cons hw1bp]
      exact hr3.tokens
    · rw [fail_cons hw1bp]
      exact hr3.running
    · rw [fail_cons hw1bp]
      exact hr3.status
    · intro j hj
      rw [fail_cons hw1bp]
      show s3.stack[j]? = s.stack[j]?
      exact ((hr3.stack hsx).2) j hj
  · -- P failed: restore the inner record, outer commit, outer fail with
    -- all entry registers in place.
    right
    have hw0bp : w0.bp = R2 :: R1 :: s.bp := hr.bp
    have hrestore := fail_cons hw0bp
    set s3 : Parser := { w0 with bp := R1 :: s.bp, pc := R2.pc, code := R2.code, tx := R2.tx, sx := R2.sx, fx := R2.fx } with hs3def
    have hfetchco : s3.code[s3.pc]? = some (Instr.commit 0) := by
      show s.code[D.length + P.length + 4]? = _
      rw [hcode]
      have hm := code_get_mid D (andP P) E (P.length + 4)
        (by rw [andP_length]; omega)
      rw [show D.length + P.length + 4 = D.length + (P.length + 4) by omega, hm]
      exact andP_get_commit_outer P
    have hbps3 : s3.bp = R1 :: s.bp := rfl
    have hstepco := stepE_commit_cons hfetchco hbps3
    set s4 : Parser := { bump s3 with bp := s.bp, pc := Parser.addOff (s3.pc + 1) 0 } with hs4def
    have hpc4 : s4.pc = D.length + P.length + 5 := by
      show Parser.addOff (s3.pc + 1) 0 = _
      show Parser.addOff (R2.pc + 1) 0 = _
      unfold Parser.addOff
      show ((D.length + P.length + 4 + 1 : Nat) : Int).toNat = _
      omega
    have hfetchfo : s4.code[s4.pc]? = some Instr.fail := by
      show s3.code[s4.pc]? = _
      show s.code[s4.pc]? = _
      rw [hcode, hpc4]
      have hm := code_get_mid D (andP P) E (P.length + 5)
        (by rw [andP_length]; omega)
      rw [show D.length + P.length + 5 = D.length + (P.length + 5) by omega, hm]
      exact andP_get_fail_outer P
    have hstepfo := stepE_fail hfetchfo
    refine ⟨jn + 5, bump s4, ?_, rfl, rfl, rfl, rfl, rfl, ?_, ?_, ?_, ?_, ?_⟩
    · have e1 : Parser.stepsN (jn + 5) s = Parser.stepsN (jn + 4) s1 := by
        rw [show jn + 5 = (jn + 4) + 1 by omega, stepsN_cons_ok hstep1]
      have e2 : Parser.stepsN (jn + 4) s1 = Parser.stepsN (jn + 3) s2 := by
        rw [show jn + 4 = (jn + 3) + 1 by omega, stepsN_cons_ok hstep2]
      have e3 : Parser.stepsN (jn + 3) s2 = Parser.stepsN 2 (Parser.fail w0) := by
        rw [show jn + 3 = (jn + 1) + 2 by omega]
        exact stepsN_append hstepsf
      have e4 : Parser.stepsN 2 (Parser.fail w0) = Parser.stepsN 2 s3 := by
        rw [hrestore]
      have e5 : Parser.stepsN 2 s3 = Parser.stepsN 1 s4 := stepsN_cons_ok hstepco
      have e6 : Parser.stepsN 1 s4 = Parser.stepsN 0 (bump s4).fail :=
        stepsN_cons_ok hstepfo
      rw [e1, e2, e3, e4, e5, e6]
      rfl
    · show w0.tokens = s.tokens
      exact hr.tokens
    · show w0.running = s.running
      exact hr.running
    · show w0.status = s.status
      exact hr.status
    · intro j hj
      show w0.stack[j]? = s.stack[j]?
      exact ((hr.stack hsx).2) j hj
    · intro hbp
      have hwbp : (bump s4).bp = [] := hbp
      rw [fail_nil hwbp]
      exact ⟨rfl, rfl, rfl⟩

/-- C1 (counterexample): with grammar `S := not(any())` and input `"a"`,
`accept("a"); run()` drives the machine through the predicate's failure
path with no enclosing backtrack record: it halts with status `failure`
and the cursor at 1 — not at its entry value 0 — and the stack pointer
at 4 rather than the 3 cells the enclosing `jsr` had pushed.  So a
predicate does NOT leave the cursor and stack pointer unchanged on every
exit path: the claim fails on the failing path when the backtrack chain
is empty. -/
theorem claim_C1_counterexample :
    ∃ sF, acceptRun (Parser.mk0 gNotAny "S") [97] 20 20 = Outcome.ok sF ∧
      sF.status = Status.failure ∧ sF.tx = 1 ∧ sF.tx ≠ 0 ∧ sF.sx = 4 := by
  refine ⟨_, rfl, rfl, rfl, ?_, rfl⟩
  decide

/-- C1 (amended): over a straight-line predicate body (instructions from
char/charset/any/move/pushd — the bodies produced for literals, charsets
and lookarounds), for every grammar, input and machine state entering the
emitted block with `sx` within the stack:

* `not(P)` — if `P` fails, the predicate *succeeds*: the machine exits
  just past the block with cursor `tx`, stack pointer `sx`, frame pointer
  `fx`, backtrack chain `bp`, and the stack below the entry `sx` exactly
  as on entry.  If `P` matches, the predicate *fails*: after `|P|+3`
  steps the `fail` primitive executes in a state `w` that keeps `P`'s
  progress (cursor advanced past what `P` consumed, stack grown) with the
  entry chain; with no enclosing record the machine halts with status
  `failure` and `w`'s cursor, NOT the entry cursor.
* `and(P)` (`not(not(P))`) — if `P` matches, the predicate succeeds with
  the same full restoration; if `P` fails, the `fail` primitive executes
  with cursor, stack pointer and frame pointer already restored to the
  entry values.
* `lookaround(delta, P)` (`nat`) is literally `not(move delta; P)` and is
  covered by the `not` case.
-/
theorem claim_C1_amended :
    (∀ (P : List Instr), (∀ i ∈ P, tokenInstr i = true) →
      ∀ (D E : List Instr) (s : Parser),
        s.code = D ++ notP P ++ E → s.pc = D.length →
        s.sx ≤ s.stack.length →
        (∃ n sE, Parser.stepsN n s = Except.ok sE ∧
          sE.pc = D.length + P.length + 3 ∧ sE.code = s.code ∧ sE.tx = s.tx ∧
          sE.sx = s.sx ∧ sE.fx = s.fx ∧ sE.bp = s.bp ∧ sE.tokens = s.tokens ∧
          sE.running = s.running ∧ sE.status = s.status ∧
          (∀ j, j < s.sx → sE.stack[j]? = s.stack[j]?)) ∨
        (∃ w, Parser.stepsN (P.length + 3) s = Except.ok (Parser.fail w) ∧
          w.bp = s.bp ∧ w.code = s.code ∧ w.fx = s.fx ∧ s.sx ≤ w.sx ∧
          w.tokens = s.tokens ∧ w.running = s.running ∧ w.status = s.status ∧
          (∀ j, j < s.sx → w.stack[j]? = s.stack[j]?) ∧
          (s.bp = [] → (Parser.fail w).running = false ∧
            (Parser.fail w).status = Status.failure ∧
            (Parser.fail w).tx = w.tx))) ∧
    (∀ (P : List Instr), (∀ i ∈ P, tokenInstr i = true) →
      ∀ (D E : List Instr) (s : Parser),
        s.code = D ++ andP P ++ E → s.pc = D.length →
        s.sx ≤ s.stack.length →
        (∃ n sE, Parser.stepsN n s = Except.ok sE ∧
          sE.pc = D.length + P.length + 6 ∧ sE.code = s.code ∧ sE.tx = s.tx ∧
          sE.sx = s.sx ∧ sE.fx = s.fx ∧ sE.bp = s.bp ∧ sE.tokens = s.tokens ∧
          sE.running = s.running ∧ sE.status = s.status ∧
          (∀ j, j < s.sx → sE.stack[j]? = s.stack[j]?)) ∨
        (∃ n w, Parser.stepsN n s = Except.ok (Parser.fail w) ∧
          w.bp = s.bp ∧ w.code = s.code ∧ w.tx = s.tx ∧ w.sx = s.sx ∧
          w.fx = s.fx ∧ w.tokens = s.tokens ∧ w.running = s.running ∧
          w.status = s.status ∧ (∀ j, j < s.sx → w.stack[j]? = s.stack[j]?) ∧
          (s.bp = [] → (Parser.fail w).running = false ∧
            (Parser.fail w).status = Status.failure ∧
            (Parser.fail w).tx = s.tx))) ∧
    (∀ (d : Int) (P : List Instr), natP d P = notP (Instr.move d :: P)) :=
  ⟨fun P hP D E s hcode hpc hsx => notP_run P hP D E s hcode hpc hsx,
   fun P hP D E s hcode hpc hsx => andP_run P hP D E s hcode hpc hsx,
   fun _ _ => rfl⟩

/-- C1 (witness): the amended theorem applied to `not(any())` at the
start of a concrete machine with input `"a"`. -/
theorem claim_C1_witness :
    (∃ n sE, Parser.stepsN n c1state = Except.ok sE ∧
      sE.pc = List.length ([] : List Instr) + anyP.length + 3 ∧
      sE.code = c1state.code ∧ sE.tx = c1state.tx ∧
      sE.sx = c1state.sx ∧ sE.fx = c1state.fx ∧ sE.bp = c1state.bp ∧
      sE.tokens = c1state.tokens ∧ sE.running = c1state.running ∧
      sE.status = c1state.status ∧
      (∀ j, j < c1state.sx → sE.stack[j]? = c1state.stack[j]?)) ∨
    (∃ w, Parser.stepsN (anyP.length + 3) c1state =
        Except.ok (Parser.fail w) ∧
      w.bp = c1state.bp ∧ w.code = c1state.code ∧ w.fx = c1state.fx ∧
      c1state.sx ≤ w.sx ∧ w.tokens = c1state.tokens ∧
      w.running = c1state.running ∧ w.status = c1state.status ∧
      (∀ j, j < c1state.sx → w.stack[j]? = c1state.stack[j]?) ∧
      (c1state.bp = [] → (Parser.fail w).running = false ∧
        (Parser.fail w).status = Status.failure ∧
        (Parser.fail w).tx = w.tx)) :=
  claim_C1_amended.1 anyP (by decide) [] [Instr.ret none] c1state rfl rfl
    (by decide)

end Pegparse
